import Mathlib

/-!
Verification development for the email-builder repository.

The development shallowly embeds the three core subsystems of the source:

* the zustand block store (`src/store`, file `part_009`): the block tree,
  its mutation operations and the bounded undo/redo history;
* the drag-and-drop targeting engine (`src/editor/DragDropManager.ts`,
  file `part_007`): drop-target resolution from cached rectangles and the
  drop-release index arithmetic;
* the email renderer (`src/renderer/EmailRenderer.ts`) together with the
  variable-substitution function (`src/types/variables.ts`, file `part_013`).

Modelling conventions, used throughout:

* Block ids are strings in the source and are only ever generated fresh and
  compared for equality; they are modelled as naturals (`Id := Nat`).
* The source's `generateId()` draws a fresh random id.  It is modelled by
  threading a counter: an operation that generates ids takes a seed `n` and
  uses `n`, `n+1`, … in the order in which the source calls `generateId()`.
* JS arrays `history.past` / `history.future` are modelled as lists holding
  the MOST RECENT snapshot at the HEAD.  The source keeps the most recent
  `past` snapshot at the END of the array (push at the end, pop from the end,
  `slice(-50)` evicts from the front) and the next `future` snapshot at the
  front; both become head operations here, and eviction becomes `List.take`.
* `array.splice(i, 0, x)` (insertion, with JS clamping past the end) is
  modelled by `spliceInsert`.
* Optional string fields (`link?`, `width?`, …) that the renderer tests for
  JS truthiness are modelled as `String` with `""` playing the role of both
  `undefined` and the (equally falsy) empty string.
* TS `Partial<Block>` updates are modelled by `BlockUpdates`, a record of
  `Option`-valued fields covering the fields of the modelled block variants;
  `{ ...block, ...updates }` becomes `applyUpdates`.
* Fields of the source that no modelled operation reads or writes
  (`locked`, `hidden`, `placeholder`, `preheaderText`, image `height`) are
  omitted from the model.
-/

namespace EmailBuilder

/-- Block ids: strings in the source, only compared for equality; modelled
as naturals. -/
abbrev Id := Nat

/-- Models `array.splice(i, 0, a)` on a JS array: insert `a` at index `i`,
clamping to the end when `i` exceeds the length (JS semantics for
non-negative indices). -/
def spliceInsert (l : List α) (i : Nat) (a : α) : List α :=
  l.take i ++ a :: l.drop i

/-- A sparse style record (`BlockStyles` in `src/types/styles.ts`): a JS
object whose own enumerable fields are camel-cased style keys with string
values, modelled as the insertion-ordered field list that
`Object.entries` iterates. -/
abbrev BlockStyles := List (String × String)

/-- The `buttonStyles` sub-record of a button block (`src/types/blocks.ts`). -/
structure ButtonStyles where
  backgroundColor : String
  textColor : String
  borderRadius : String
  paddingX : String
  paddingY : String
  fontSize : String
  fontWeight : String
  borderWidth : String
  borderColor : String
  fullWidth : Bool
  deriving DecidableEq, Repr

/-- The `dividerStyles` sub-record of a divider block. -/
structure DividerStyles where
  style : String
  color : String
  thickness : String
  width : String
  deriving DecidableEq, Repr

/-- One entry of a social block's `links` array. -/
structure SocialLink where
  id : Id
  platform : String
  url : String
  icon : String
  deriving DecidableEq, Repr

/-- One entry of a menu block's `items` array. -/
structure MenuItem where
  id : Id
  text : String
  link : String
  deriving DecidableEq, Repr

/-- One entry of a list block's `items` array. -/
structure ListItem where
  id : Id
  content : String
  deriving DecidableEq, Repr

/-- The per-variant payload of the non-recursive (non-`columns`,
non-`column`) block variants of the `Block` tagged union in
`src/types/blocks.ts`.  Optional string fields are `""` when absent. -/
inductive LeafData : Type where
  | text (content : String)
  | heading (content : String) (level : Nat)
  | image (src : String) (alt : String) (link : String) (width : String)
  | button (text : String) (link : String) (buttonStyles : ButtonStyles)
  | divider (dividerStyles : DividerStyles)
  | spacer (height : String)
  | social (links : List SocialLink) (iconSize : String) (iconStyle : String)
      (spacing : String) (alignment : String)
  | video (videoUrl : String) (thumbnailUrl : String) (playButtonColor : String)
  | html (content : String)
  | menu (items : List MenuItem) (separator : String) (layout : String)
  | footer (content : String) (showUnsubscribe : Bool) (showAddress : Bool)
      (address : String)
  | header (showWebVersion : Bool) (webVersionText : String)
  | logo (src : String) (alt : String) (link : String) (width : String)
      (alignment : String)
  | list (items : List ListItem) (listType : String) (bulletStyle : String)
  deriving DecidableEq, Repr

/-- The `Block` tagged union of `src/types/blocks.ts`.  The fourteen
non-recursive variants are grouped as `leaf` blocks carrying their
`LeafData`; the two recursive variants (`columns`, whose `columns` array
holds `column` blocks, and `column`, whose `children` array holds blocks)
are explicit constructors. -/
inductive Block : Type where
  | leaf (id : Id) (styles : BlockStyles) (data : LeafData)
  | columnsB (id : Id) (styles : BlockStyles) (gap : String)
      (stackOnMobile : Bool) (mobileReverse : Bool) (columns : List Block)
  | columnB (id : Id) (styles : BlockStyles) (width : String)
      (children : List Block)

/-- The `type` discriminator string of a block (`BlockType` in the source). -/
inductive BlockType : Type where
  | text | heading | image | button | divider | spacer | columns | column
  | social | video | html | menu | footer | header | logo | list
  deriving DecidableEq, Repr

/-- Reads the `id` field shared by every block variant. -/
def Block.id : Block → Id
  | .leaf i _ _ => i
  | .columnsB i _ _ _ _ _ => i
  | .columnB i _ _ _ => i

/-- Reads the `type` tag of a block. -/
def Block.type : Block → BlockType
  | .leaf _ _ (.text _) => .text
  | .leaf _ _ (.heading _ _) => .heading
  | .leaf _ _ (.image _ _ _ _) => .image
  | .leaf _ _ (.button _ _ _) => .button
  | .leaf _ _ (.divider _) => .divider
  | .leaf _ _ (.spacer _) => .spacer
  | .leaf _ _ (.social _ _ _ _ _) => .social
  | .leaf _ _ (.video _ _ _) => .video
  | .leaf _ _ (.html _) => .html
  | .leaf _ _ (.menu _ _ _) => .menu
  | .leaf _ _ (.footer _ _ _ _) => .footer
  | .leaf _ _ (.header _ _) => .header
  | .leaf _ _ (.logo _ _ _ _ _) => .logo
  | .leaf _ _ (.list _ _ _) => .list
  | .columnsB _ _ _ _ _ _ => .columns
  | .columnB _ _ _ _ => .column

mutual

/-- Decidable equality on blocks (hand-written: `deriving` does not handle
the nested `List Block` fields). -/
def decEqBlock : (a b : Block) → Decidable (a = b)
  | .leaf i st d, .leaf i' st' d' =>
    match Nat.decEq i i', decEq st st', decEq d d' with
    | isTrue h1, isTrue h2, isTrue h3 => isTrue (by rw [h1, h2, h3])
    | isFalse h1, _, _ => isFalse (fun h => by cases h; exact h1 rfl)
    | _, isFalse h2, _ => isFalse (fun h => by cases h; exact h2 rfl)
    | _, _, isFalse h3 => isFalse (fun h => by cases h; exact h3 rfl)
  | .columnsB i st g sm mr cols, .columnsB i' st' g' sm' mr' cols' =>
    match Nat.decEq i i', decEq st st', String.decEq g g',
        Bool.decEq sm sm', Bool.decEq mr mr', decEqBlockList cols cols' with
    | isTrue h1, isTrue h2, isTrue h3, isTrue h4, isTrue h5, isTrue h6 =>
      isTrue (by rw [h1, h2, h3, h4, h5, h6])
    | isFalse h1, _, _, _, _, _ => isFalse (fun h => by cases h; exact h1 rfl)
    | _, isFalse h2, _, _, _, _ => isFalse (fun h => by cases h; exact h2 rfl)
    | _, _, isFalse h3, _, _, _ => isFalse (fun h => by cases h; exact h3 rfl)
    | _, _, _, isFalse h4, _, _ => isFalse (fun h => by cases h; exact h4 rfl)
    | _, _, _, _, isFalse h5, _ => isFalse (fun h => by cases h; exact h5 rfl)
    | _, _, _, _, _, isFalse h6 => isFalse (fun h => by cases h; exact h6 rfl)
  | .columnB i st w ch, .columnB i' st' w' ch' =>
    match Nat.decEq i i', decEq st st', String.decEq w w',
        decEqBlockList ch ch' with
    | isTrue h1, isTrue h2, isTrue h3, isTrue h4 =>
      isTrue (by rw [h1, h2, h3, h4])
    | isFalse h1, _, _, _ => isFalse (fun h => by cases h; exact h1 rfl)
    | _, isFalse h2, _, _ => isFalse (fun h => by cases h; exact h2 rfl)
    | _, _, isFalse h3, _ => isFalse (fun h => by cases h; exact h3 rfl)
    | _, _, _, isFalse h4 => isFalse (fun h => by cases h; exact h4 rfl)
  | .leaf _ _ _, .columnsB _ _ _ _ _ _ => isFalse (fun h => Block.noConfusion h)
  | .leaf _ _ _, .columnB _ _ _ _ => isFalse (fun h => Block.noConfusion h)
  | .columnsB _ _ _ _ _ _, .leaf _ _ _ => isFalse (fun h => Block.noConfusion h)
  | .columnsB _ _ _ _ _ _, .columnB _ _ _ _ => isFalse (fun h => Block.noConfusion h)
  | .columnB _ _ _ _, .leaf _ _ _ => isFalse (fun h => Block.noConfusion h)
  | .columnB _ _ _ _, .columnsB _ _ _ _ _ _ => isFalse (fun h => Block.noConfusion h)

/-- Decidable equality on block lists, mutually with `decEqBlock`. -/
def decEqBlockList : (l1 l2 : List Block) → Decidable (l1 = l2)
  | [], [] => isTrue rfl
  | [], _ :: _ => isFalse (fun h => List.noConfusion h)
  | _ :: _, [] => isFalse (fun h => List.noConfusion h)
  | a :: as, b :: bs =>
    match decEqBlock a b, decEqBlockList as bs with
    | isTrue h1, isTrue h2 => isTrue (by rw [h1, h2])
    | isFalse h1, _ => isFalse (fun h => by cases h; exact h1 rfl)
    | _, isFalse h2 => isFalse (fun h => by cases h; exact h2 rfl)

end

instance : DecidableEq Block := decEqBlock

/-! ## Block store tree helpers (`part_009`, lines 30–144) -/

mutual

/-- Embeds `findBlockById(blocks, id)` (the searched id comes first here so
the recursion is structural): scan the list; on a `columns` block also scan
its columns (returning a matching column itself) and recurse into each
column's children, in source order. -/
def findBlockById (i : Id) : List Block → Option Block
  | [] => none
  | b :: bs =>
    match findBlockHere i b with
    | some r => some r
    | none => findBlockById i bs

/-- One iteration of `findBlockById`'s loop: the id test on the block
itself, and for a `columns` block the scan of its columns. -/
def findBlockHere (i : Id) : Block → Option Block
  | .leaf j st d => if j = i then some (.leaf j st d) else none
  | .columnsB j st g sm mr cols =>
    if j = i then some (.columnsB j st g sm mr cols) else findInColumns i cols
  | .columnB j st w ch => if j = i then some (.columnB j st w ch) else none

/-- The inner `for (const column of block.columns)` loop of `findBlockById`. -/
def findInColumns (i : Id) : List Block → Option Block
  | [] => none
  | c :: cs =>
    match findInColumn i c with
    | some r => some r
    | none => findInColumns i cs

/-- One column of `findBlockById`'s inner loop: a column whose own id
matches is returned; otherwise its children are searched recursively. -/
def findInColumn (i : Id) : Block → Option Block
  | .columnB j st w ch =>
    if j = i then some (.columnB j st w ch) else findBlockById i ch
  | .leaf j st d => if j = i then some (.leaf j st d) else none
  | .columnsB j st g sm mr cols =>
    if j = i then some (.columnsB j st g sm mr cols) else none

end

/-- A shallow `Partial<Block>` update record (`updateBlock`'s second
argument), restricted to representative fields of the modelled variants:
spreading `{ ...block, ...updates }` overrides exactly the fields present. -/
structure BlockUpdates where
  id : Option Id := none
  styles : Option BlockStyles := none
  content : Option String := none
  text : Option String := none
  link : Option String := none
  height : Option String := none
  width : Option String := none
  deriving DecidableEq, Repr

/-- Models the spread `{ ...block, ...updates }`: each field present in the
updates record replaces the block's field of the same name; fields the
variant does not have are ignored (in JS they would be added as extra
properties that no reader consults). -/
def applyUpdates (b : Block) (u : BlockUpdates) : Block :=
  match b with
  | .leaf i st d =>
    let d' :=
      match d with
      | .text c => LeafData.text (u.content.getD c)
      | .heading c lv => LeafData.heading (u.content.getD c) lv
      | .image s a l w => LeafData.image s a (u.link.getD l) (u.width.getD w)
      | .button t l bst => LeafData.button (u.text.getD t) (u.link.getD l) bst
      | .spacer h => LeafData.spacer (u.height.getD h)
      | .html c => LeafData.html (u.content.getD c)
      | .footer c su sa ad => LeafData.footer (u.content.getD c) su sa ad
      | d => d
    .leaf (u.id.getD i) (u.styles.getD st) d'
  | .columnsB i st g sm mr cols =>
    .columnsB (u.id.getD i) (u.styles.getD st) g sm mr cols
  | .columnB i st w ch =>
    .columnB (u.id.getD i) (u.styles.getD st) (u.width.getD w) ch

mutual

/-- Embeds `updateBlockInTree(blocks, id, updates)` (the id and the updates
come first here so the recursion is structural): `map` over the list,
merging the updates into the matching block; a `columns` block is rebuilt
with each column either merged (if the column id matches) or given
recursively updated children. -/
def updateBlockInTree (i : Id) (u : BlockUpdates) : List Block → List Block
  | [] => []
  | b :: bs => updateTopBlock i u b :: updateBlockInTree i u bs

/-- One element of `updateBlockInTree`'s map. -/
def updateTopBlock (i : Id) (u : BlockUpdates) : Block → Block
  | .leaf j st d => if j = i then applyUpdates (.leaf j st d) u else .leaf j st d
  | .columnsB j st g sm mr cols =>
    if j = i then applyUpdates (.columnsB j st g sm mr cols) u
    else .columnsB j st g sm mr (updateInColumns i u cols)
  | .columnB j st w ch =>
    if j = i then applyUpdates (.columnB j st w ch) u else .columnB j st w ch

/-- The inner `block.columns.map(column => …)` of `updateBlockInTree`. -/
def updateInColumns (i : Id) (u : BlockUpdates) : List Block → List Block
  | [] => []
  | c :: cs => updateColumnEntry i u c :: updateInColumns i u cs

/-- One column of `updateBlockInTree`'s inner map: merged when its id
matches, otherwise its children are updated recursively. -/
def updateColumnEntry (i : Id) (u : BlockUpdates) : Block → Block
  | .columnB j st w ch =>
    if j = i then applyUpdates (.columnB j st w ch) u
    else .columnB j st w (updateBlockInTree i u ch)
  | .leaf j st d => if j = i then applyUpdates (.leaf j st d) u else .leaf j st d
  | .columnsB j st g sm mr cols =>
    if j = i then applyUpdates (.columnsB j st g sm mr cols) u
    else .columnsB j st g sm mr cols

end

mutual

/-- Embeds `deleteBlockFromTree(blocks, id)` (the id comes first here so the
recursion is structural): filter out blocks with the given id, then rebuild
every surviving `columns` block with the deletion applied recursively to
each column's children. -/
def deleteBlockFromTree (i : Id) : List Block → List Block
  | [] => []
  | b :: bs =>
    if b.id = i then deleteBlockFromTree i bs
    else deleteSurvivor i b :: deleteBlockFromTree i bs

/-- One surviving element of `deleteBlockFromTree`'s map. -/
def deleteSurvivor (i : Id) : Block → Block
  | .leaf j st d => .leaf j st d
  | .columnsB j st g sm mr cols => .columnsB j st g sm mr (deleteInColumns i cols)
  | .columnB j st w ch => .columnB j st w ch

/-- The inner `block.columns.map(column => ({ ...column, children:
deleteBlockFromTree(column.children, id) }))` of `deleteBlockFromTree`. -/
def deleteInColumns (i : Id) : List Block → List Block
  | [] => []
  | c :: cs => deleteColumnEntry i c :: deleteInColumns i cs

/-- One column of `deleteBlockFromTree`'s inner map. -/
def deleteColumnEntry (i : Id) : Block → Block
  | .columnB j st w ch => .columnB j st w (deleteBlockFromTree i ch)
  | c => c

end

/-- One column of `insertBlockInTree`'s inner map: the column whose id
equals `parentId` gets the new block spliced into its children. -/
def insertColEntry (newBlock : Block) (index : Nat) (pid : Id) (c : Block) : Block :=
  if c.id = pid then
    match c with
    | .columnB ci cst w ch => .columnB ci cst w (spliceInsert ch index newBlock)
    | c => c
  else c

/-- One block of `insertBlockInTree`'s outer map: a `columns` block is
rebuilt with `insertColEntry` over its columns. -/
def insertIntoBlock (newBlock : Block) (index : Nat) (pid : Id) (b : Block) : Block :=
  match b with
  | .columnsB bi st g sm mr cols =>
    .columnsB bi st g sm mr (cols.map (insertColEntry newBlock index pid))
  | b => b

/-- Embeds `insertBlockInTree(blocks, newBlock, index, parentId)`: without a
`parentId` the new block is spliced into the top-level sequence; with one,
every top-level `columns` block is rebuilt with the new block spliced into
the children of the column whose id equals `parentId`.  Note the source
performs no recursion into children and no check on `newBlock.type`. -/
def insertBlockInTree (blocks : List Block) (newBlock : Block) (index : Nat)
    (parentId : Option Id) : List Block :=
  match parentId with
  | none => spliceInsert blocks index newBlock
  | some pid => blocks.map (insertIntoBlock newBlock index pid)

mutual

/-- Embeds `cloneBlock(block)` with the fresh-id counter threaded through:
a non-`columns` block is shallow-copied with a fresh id (a `column` block's
children are shared, matching the source spread); a `columns` block gets a
fresh id, then each column gets a fresh id and deep-cloned children, in the
source's `generateId()` call order. -/
def cloneBlock : Block → Nat → Block × Nat
  | .leaf _ st d => fun n => (.leaf n st d, n + 1)
  | .columnB _ st w ch => fun n => (.columnB n st w ch, n + 1)
  | .columnsB _ st g sm mr cols => fun n =>
    let r := cloneColumns cols (n + 1)
    (.columnsB n st g sm mr r.1, r.2)

/-- The `block.columns.map(col => …)` of `cloneBlock`. -/
def cloneColumns : List Block → Nat → List Block × Nat
  | [] => fun n => ([], n)
  | c :: cs => fun n =>
    let r1 := cloneColumn c n
    let r2 := cloneColumns cs r1.2
    (r1.1 :: r2.1, r2.2)

/-- One column of `cloneBlock`'s columns map: `{ ...col, id: generateId(),
children: col.children.map(child => cloneBlock(child)) }`. -/
def cloneColumn : Block → Nat → Block × Nat
  | .columnB _ st w ch => fun n =>
    let r := cloneChildren ch (n + 1)
    (.columnB n st w r.1, r.2)
  | .leaf _ st d => fun n => (.leaf n st d, n + 1)
  | .columnsB _ st g sm mr cols => fun n => (.columnsB n st g sm mr cols, n + 1)

/-- The `col.children.map(child => cloneBlock(child))` of `cloneBlock`. -/
def cloneChildren : List Block → Nat → List Block × Nat
  | [] => fun n => ([], n)
  | c :: cs => fun n =>
    let r1 := cloneBlock c n
    let r2 := cloneChildren cs r1.2
    (r1.1 :: r2.1, r2.2)

end

/-! ## Block store state and operations (`part_009`, lines 146–310) -/

/-- The undo/redo stacks of full tree snapshots; most recent first (see the
file comment on stack orientation). -/
structure HistoryState where
  past : List (List Block)
  future : List (List Block)
  deriving DecidableEq

/-- A merge-tag variable record (`src/types/variables.ts`). -/
structure Variable where
  id : String
  name : String
  key : String
  defaultValue : String
  description : String
  category : String
  required : Bool
  deriving DecidableEq, Repr

/-- The `body` style group of `EmailStyles`. -/
structure BodyStyles where
  backgroundColor : String
  fontFamily : String
  fontSize : String
  lineHeight : String
  color : String
  deriving DecidableEq, Repr

/-- The `container` style group of `EmailStyles`. -/
structure ContainerStyles where
  backgroundColor : String
  maxWidth : String
  borderRadius : String
  padding : String
  deriving DecidableEq, Repr

/-- The `link` style group of `EmailStyles`. -/
structure LinkStyles where
  color : String
  textDecoration : String
  deriving DecidableEq, Repr

/-- Email-wide styles (`src/types/styles.ts`). -/
structure EmailStyles where
  body : BodyStyles
  container : ContainerStyles
  link : LinkStyles
  deriving DecidableEq, Repr

/-- The drop-position discriminator `'before' | 'after' | 'inside'`. -/
inductive DropPosition : Type where
  | before | after | inside
  deriving DecidableEq, Repr

/-- The preview-mode discriminator `'desktop' | 'mobile'`. -/
inductive PreviewMode : Type where
  | desktop | mobile
  deriving DecidableEq, Repr

/-- The store state (`EditorState` in `src/types/editor.ts`); the source's
`variables` field is named `vars` here because `variables` is reserved. -/
structure EditorState where
  blocks : List Block
  selectedBlockId : Option Id
  hoveredBlockId : Option Id
  draggedBlockId : Option Id
  dropTargetId : Option Id
  dropPosition : Option DropPosition
  emailStyles : EmailStyles
  vars : List Variable
  history : HistoryState
  isDirty : Bool
  previewMode : PreviewMode
  showGrid : Bool
  zoom : Int
  deriving DecidableEq

/-- `DEFAULT_EMAIL_STYLES` of `src/types/styles.ts` (`part_012`). -/
def DEFAULT_EMAIL_STYLES : EmailStyles :=
  { body :=
      { backgroundColor := "#f4f4f4"
        fontFamily := "Arial, Helvetica, sans-serif"
        fontSize := "16px"
        lineHeight := "1.5"
        color := "#333333" }
    container :=
      { backgroundColor := "#ffffff"
        maxWidth := "600px"
        borderRadius := "0"
        padding := "0" }
    link :=
      { color := "#3b82f6"
        textDecoration := "underline" } }

/-- The store's `initialState`. -/
def initialState : EditorState :=
  { blocks := []
    selectedBlockId := none
    hoveredBlockId := none
    draggedBlockId := none
    dropTargetId := none
    dropPosition := none
    emailStyles := DEFAULT_EMAIL_STYLES
    vars := []
    history := { past := [], future := [] }
    isDirty := false
    previewMode := .desktop
    showGrid := false
    zoom := 100 }

/-- `MAX_HISTORY_LENGTH` of the store. -/
def MAX_HISTORY_LENGTH : Nat := 50

/-- Embeds `pushToHistory(history, blocks)`: prepend the snapshot (the
source appends, see stack orientation), keep the most recent
`MAX_HISTORY_LENGTH` snapshots, clear the future stack. -/
def pushToHistory (h : HistoryState) (blocks : List Block) : HistoryState :=
  { past := (blocks :: h.past).take MAX_HISTORY_LENGTH, future := [] }

/-- Embeds the store's `setBlocks`. -/
def setBlocks (s : EditorState) (blocks : List Block) : EditorState :=
  { s with
    blocks := blocks
    history := pushToHistory s.history s.blocks
    isDirty := true }

/-- Embeds the store's `addBlock(block, index?, parentId?)`; a missing
`index` defaults to `state.blocks.length`. -/
def addBlock (s : EditorState) (block : Block) (index : Option Nat)
    (parentId : Option Id) : EditorState :=
  let idx := index.getD s.blocks.length
  { s with
    blocks := insertBlockInTree s.blocks block idx parentId
    selectedBlockId := some block.id
    history := pushToHistory s.history s.blocks
    isDirty := true }

/-- Embeds the store's `updateBlock(id, updates)`. -/
def updateBlock (s : EditorState) (i : Id) (u : BlockUpdates) : EditorState :=
  { s with
    blocks := updateBlockInTree i u s.blocks
    history := pushToHistory s.history s.blocks
    isDirty := true }

/-- Embeds the store's `deleteBlock(id)`. -/
def deleteBlock (s : EditorState) (i : Id) : EditorState :=
  { s with
    blocks := deleteBlockFromTree i s.blocks
    selectedBlockId := if s.selectedBlockId = some i then none else s.selectedBlockId
    history := pushToHistory s.history s.blocks
    isDirty := true }

/-- Embeds the store's `moveBlock(id, toIndex, parentId?)`: an early return
when the id is not found, otherwise delete-then-insert of the found block. -/
def moveBlock (s : EditorState) (i : Id) (toIndex : Nat)
    (parentId : Option Id) : EditorState :=
  match findBlockById i s.blocks with
  | none => s
  | some block =>
    { s with
      blocks := insertBlockInTree (deleteBlockFromTree i s.blocks) block toIndex parentId
      history := pushToHistory s.history s.blocks
      isDirty := true }

/-- Embeds the store's `duplicateBlock(id)` with the fresh-id seed made
explicit: an early return when the id is not found; otherwise the clone is
spliced at `findIndex(top level) + 1` — which is index `0` when the block is
not top-level, since `findIndex` returns `-1` — and selected. -/
def duplicateBlock (s : EditorState) (i : Id) (seed : Nat) : EditorState :=
  match findBlockById i s.blocks with
  | none => s
  | some block =>
    let cloned := (cloneBlock block seed).1
    let insertAt : Nat :=
      match s.blocks.findIdx? (fun b => b.id = i) with
      | some bi => bi + 1
      | none => 0
    { s with
      blocks := spliceInsert s.blocks insertAt cloned
      selectedBlockId := some cloned.id
      history := pushToHistory s.history s.blocks
      isDirty := true }

/-- Embeds the store's `undo()`: no-op on an empty past; otherwise the most
recent past snapshot becomes live and the live tree is pushed onto the
future stack. -/
def undo (s : EditorState) : EditorState :=
  match s.history.past with
  | [] => s
  | previous :: newPast =>
    { s with
      blocks := previous
      history := { past := newPast, future := s.blocks :: s.history.future }
      isDirty := true }

/-- Embeds the store's `redo()`: symmetric to `undo`. -/
def redo (s : EditorState) : EditorState :=
  match s.history.future with
  | [] => s
  | next :: newFuture =>
    { s with
      blocks := next
      history := { past := s.blocks :: s.history.past, future := newFuture }
      isDirty := true }

/-- One structural mutation of the block store, as listed in the history
discipline; `duplicateBlock` carries its fresh-id seed (see the modelling
conventions). -/
inductive Op : Type where
  | setBlocks (blocks : List Block)
  | addBlock (block : Block) (index : Option Nat) (parentId : Option Id)
  | updateBlock (i : Id) (u : BlockUpdates)
  | deleteBlock (i : Id)
  | moveBlock (i : Id) (toIndex : Nat) (parentId : Option Id)
  | duplicateBlock (i : Id) (seed : Nat)
  deriving DecidableEq

/-- Applies one structural mutation to the store state. -/
def applyOp (s : EditorState) : Op → EditorState
  | .setBlocks blocks => setBlocks s blocks
  | .addBlock b idx pid => addBlock s b idx pid
  | .updateBlock i u => updateBlock s i u
  | .deleteBlock i => deleteBlock s i
  | .moveBlock i toIndex pid => moveBlock s i toIndex pid
  | .duplicateBlock i seed => duplicateBlock s i seed

/-- Applies a sequence of structural mutations, left to right. -/
def applyOps (s : EditorState) : List Op → EditorState
  | [] => s
  | op :: ops => applyOps (applyOp s op) ops

/-- Calls `undo()` `n` times. -/
def undoN : Nat → EditorState → EditorState
  | 0, s => s
  | n + 1, s => undoN n (undo s)

/-- Calls `redo()` `n` times. -/
def redoN : Nat → EditorState → EditorState
  | 0, s => s
  | n + 1, s => redoN n (redo s)

/-! ## String utilities shared by the renderer (`src/utils`, `src/types/variables.ts`) -/

/-- The whitespace class of the JS `\s` used by the source's regexes and of
`String.prototype.trim`, restricted to its ASCII members (the only ones that
can occur in the source's templates). -/
def isJsWs (c : Char) : Bool :=
  c == ' ' || c == '\t' || c == '\n' || c == '\r' || c == Char.ofNat 11 || c == Char.ofNat 12

/-- Worker for `collapseWs`: the flag records whether the previous character
already emitted the space of a whitespace run. -/
def collapseWsGo : Bool → List Char → List Char
  | _, [] => []
  | prevWs, c :: cs =>
    if isJsWs c then
      if prevWs then collapseWsGo true cs
      else ' ' :: collapseWsGo true cs
    else c :: collapseWsGo false cs

/-- Models `str.replace(/\s+/g, ' ')`: every maximal whitespace run becomes
one space. -/
def collapseWs (s : String) : String :=
  (collapseWsGo false s.toList).asString

/-- Models `String.prototype.trim()`: strip leading and trailing
whitespace. -/
def jsTrim (s : String) : String :=
  (((s.toList.dropWhile isJsWs).reverse.dropWhile isJsWs).reverse).asString

/-- Models `escapeHtml`'s character map (`src/utils/html.ts`): the five
HTML-special characters are replaced, all others kept. -/
def escapeHtmlChar (c : Char) : String :=
  match c with
  | '&' => "&amp;"
  | '<' => "&lt;"
  | '>' => "&gt;"
  | '"' => "&quot;"
  | '\'' => "&#039;"
  | c => String.singleton c

/-- Embeds `escapeHtml(text)`: `text.replace(/[&<>"']/g, char => map[char])`. -/
def escapeHtml (s : String) : String :=
  String.join (s.toList.map escapeHtmlChar)

/-- Models `str.replace(pat, repl)` for a plain (non-regex) pattern: replace
the first occurrence only, as JS does with a string pattern. -/
def replaceFirstOcc (cs pat repl : List Char) : List Char :=
  match cs with
  | [] => []
  | c :: cs' =>
    if cs.take pat.length = pat ∧ pat ≠ [] then repl ++ cs.drop pat.length
    else c :: replaceFirstOcc cs' pat repl

/-- Models `maxWidth.replace('px', '')` in `createEmailWrapper`. -/
def stripPx (s : String) : String :=
  (replaceFirstOcc s.toList "px".toList []).asString

/-! ## Variable substitution (`src/types/variables.ts`, `part_013`) -/

/-- The bindings map of `replaceVariables`: a JS `Map<string, string>`,
modelled as the insertion list; `varGet` returns the latest binding for a
key, matching `Map` overwrite-on-insert semantics. -/
abbrev VarMap := List (String × String)

/-- Models `variables.get(key)` (latest insertion wins). -/
def varGet (m : VarMap) (k : String) : Option String :=
  m.foldl (fun acc p => if p.1 = k then some p.2 else acc) none

/-- First character of the identifier class `[a-zA-Z_]` of
`VARIABLE_PATTERN`. -/
def isIdentStart (c : Char) : Bool :=
  c.isAlpha || c == '_'

/-- Continuation characters `[a-zA-Z0-9_]` of `VARIABLE_PATTERN`. -/
def isIdentChar (c : Char) : Bool :=
  c.isAlphanum || c == '_'

/-- Tries to match `VARIABLE_PATTERN` — `\x7b\x7b\s*([a-zA-Z_][a-zA-Z0-9_]*)\s*\x7d\x7d`
— at the head of the character list.  On success returns the matched
whitespace runs, the captured key, and the unconsumed rest.  The pattern is
backtracking-free because the whitespace, identifier and brace classes are
pairwise disjoint, so maximal munch is the regex semantics. -/
def matchVar (cs : List Char) : Option ((String × String × String) × List Char) :=
  match cs with
  | '{' :: '{' :: rest =>
    let ws1 := rest.takeWhile isJsWs
    match rest.dropWhile isJsWs with
    | c :: r2 =>
      if isIdentStart c then
        let idTail := r2.takeWhile isIdentChar
        let r3 := r2.dropWhile isIdentChar
        let ws2 := r3.takeWhile isJsWs
        match r3.dropWhile isJsWs with
        | '}' :: '}' :: rest' =>
          some ((ws1.asString, (c :: idTail).asString, ws2.asString), rest')
        | _ => none
      else none
    | [] => none
  | _ => none

/-- Reassembles the literal text a `matchVar` match consumed (the `match`
argument of the replacement callback). -/
def matchSource (ws1 key ws2 : String) : String :=
  "\x7b\x7b" ++ ws1 ++ key ++ ws2 ++ "\x7d\x7d"

/-- Worker for `replaceVariables`: the leftmost-match scan of
`text.replace(VARIABLE_PATTERN, cb)`.  Fuel is the remaining input length
(every step consumes at least one character, so `length` fuel always
suffices); it makes the recursion structural so that the kernel can
evaluate the function. -/
def replaceVarsGo (m : VarMap) (fallbackToDefault : Bool) : Nat → List Char → List Char
  | 0, cs => cs
  | _ + 1, [] => []
  | fuel + 1, c :: cs =>
    match matchVar (c :: cs) with
    | some ((ws1, key, ws2), rest) =>
      (match varGet m key with
       | some v => v.toList
       | none =>
         if fallbackToDefault then (matchSource ws1 key ws2).toList else []) ++
      replaceVarsGo m fallbackToDefault fuel rest
    | none => c :: replaceVarsGo m fallbackToDefault fuel cs

/-- Embeds `replaceVariables(text, variables, fallbackToDefault = true)`:
each `VARIABLE_PATTERN` match whose key is in the map is replaced by the
bound value (`variables.get(key) || ''`, which is the bound value since a
bound empty string stays empty); an unbound key keeps the original token
when `fallbackToDefault` and is deleted otherwise. -/
def replaceVariables (text : String) (m : VarMap) (fallbackToDefault : Bool := true) : String :=
  (replaceVarsGo m fallbackToDefault text.toList.length text.toList).asString

/-! ## Style serialisation (`src/utils/styles.ts`) -/

/-- The camelCase-to-CSS `propertyMap` of `stylesToCss`. -/
def propertyMap : String → Option String
  | "backgroundColor" => some "background-color"
  | "backgroundImage" => some "background-image"
  | "backgroundPosition" => some "background-position"
  | "backgroundRepeat" => some "background-repeat"
  | "backgroundSize" => some "background-size"
  | "paddingTop" => some "padding-top"
  | "paddingRight" => some "padding-right"
  | "paddingBottom" => some "padding-bottom"
  | "paddingLeft" => some "padding-left"
  | "marginTop" => some "margin-top"
  | "marginRight" => some "margin-right"
  | "marginBottom" => some "margin-bottom"
  | "marginLeft" => some "margin-left"
  | "borderTopWidth" => some "border-top-width"
  | "borderRightWidth" => some "border-right-width"
  | "borderBottomWidth" => some "border-bottom-width"
  | "borderLeftWidth" => some "border-left-width"
  | "borderTopColor" => some "border-top-color"
  | "borderRightColor" => some "border-right-color"
  | "borderBottomColor" => some "border-bottom-color"
  | "borderLeftColor" => some "border-left-color"
  | "borderTopStyle" => some "border-top-style"
  | "borderRightStyle" => some "border-right-style"
  | "borderBottomStyle" => some "border-bottom-style"
  | "borderLeftStyle" => some "border-left-style"
  | "borderRadius" => some "border-radius"
  | "textAlign" => some "text-align"
  | "verticalAlign" => some "vertical-align"
  | "fontFamily" => some "font-family"
  | "fontSize" => some "font-size"
  | "fontWeight" => some "font-weight"
  | "fontStyle" => some "font-style"
  | "lineHeight" => some "line-height"
  | "letterSpacing" => some "letter-spacing"
  | "textDecoration" => some "text-decoration"
  | "textTransform" => some "text-transform"
  | "color" => some "color"
  | "width" => some "width"
  | "maxWidth" => some "max-width"
  | "minWidth" => some "min-width"
  | "height" => some "height"
  | "maxHeight" => some "max-height"
  | "minHeight" => some "min-height"
  | _ => none

/-- Embeds `stylesToCss(styles)`: skip empty values (absent fields are
simply not in the list), translate each key through `propertyMap`
(falling back to the key itself), and join with `"; "`. -/
def stylesToCss (styles : BlockStyles) : String :=
  String.intercalate "; "
    ((styles.filter (fun p => p.2 ≠ "")).map
      (fun p => ((propertyMap p.1).getD p.1) ++ ": " ++ p.2))

/-- Reads one field of a style record (`styles.foo` in JS; `none` when the
field is absent). -/
def styleGet (styles : BlockStyles) (k : String) : Option String :=
  (styles.find? (fun p => p.1 = k)).map (·.2)

/-! ## The email renderer (`src/renderer/EmailRenderer.ts`) -/

/-- Models `processContent`: run content through `replaceVariables` with the
renderer's bindings (default `fallbackToDefault = true`). -/
def processContent (vars : VarMap) (content : String) : String :=
  replaceVariables content vars

/-- Embeds `wrapInRow(content, styles)`: the trimmed
`<tr><td style="…">…</td></tr>` template literal. -/
def wrapInRow (content : String) (styles : BlockStyles) : String :=
  "<tr>\n        <td style=\"" ++ stylesToCss styles ++ "\">\n          " ++ content ++
    "\n        </td>\n      </tr>"

/-- Embeds `renderText`. -/
def renderText (vars : VarMap) (styles : BlockStyles) (content : String) : String :=
  wrapInRow (processContent vars content) styles

/-- Embeds `renderHeading`: the heading tag carries `margin: 0` plus the
five typography fields picked from the block's style record, in the
source's insertion order. -/
def renderHeading (vars : VarMap) (styles : BlockStyles) (content : String) (level : Nat) : String :=
  let tag := "h" ++ toString level
  let picked : BlockStyles :=
    [("fontSize", styleGet styles "fontSize"),
     ("fontWeight", styleGet styles "fontWeight"),
     ("color", styleGet styles "color"),
     ("fontFamily", styleGet styles "fontFamily"),
     ("lineHeight", styleGet styles "lineHeight")].filterMap
      (fun p => p.2.map (fun v => (p.1, v)))
  let headingStyles := "margin: 0; " ++ stylesToCss picked
  wrapInRow
    ("<" ++ tag ++ " style=\"" ++ headingStyles ++ "\">" ++
      escapeHtml (processContent vars content) ++ "</" ++ tag ++ ">")
    styles

/-- Embeds `renderImage`. -/
def renderImage (styles : BlockStyles) (src alt link width : String) : String :=
  if src = "" then
    wrapInRow
      "<div style=\"background: #f3f4f6; padding: 40px; text-align: center; color: #9ca3af;\">Click to add image</div>"
      styles
  else
    let imgStyles := "display: block; max-width: 100%; height: auto;" ++
      (if width ≠ "" then " width: " ++ width ++ ";" else "")
    let img := "<img src=\"" ++ src ++ "\" alt=\"" ++ escapeHtml alt ++ "\" style=\"" ++
      imgStyles ++ "\" />"
    let content :=
      if link ≠ "" then "<a href=\"" ++ link ++ "\" target=\"_blank\">" ++ img ++ "</a>"
      else img
    wrapInRow content styles

/-- Embeds `renderButton`: the collapsed-and-trimmed `btnStyles` template
and the `<a>` styled as a button, with the button text substituted and
escaped. -/
def renderButton (vars : VarMap) (styles : BlockStyles) (text link : String)
    (bs : ButtonStyles) : String :=
  let btnRaw :=
    "\n      display: inline-block;\n      background-color: " ++ bs.backgroundColor ++
    ";\n      color: " ++ bs.textColor ++
    ";\n      font-size: " ++ bs.fontSize ++
    ";\n      font-weight: " ++ bs.fontWeight ++
    ";\n      padding: " ++ bs.paddingY ++ " " ++ bs.paddingX ++
    ";\n      border-radius: " ++ bs.borderRadius ++
    ";\n      border: " ++ bs.borderWidth ++ " solid " ++ bs.borderColor ++
    ";\n      text-decoration: none;\n      text-align: center;\n      " ++
    (if bs.fullWidth then "width: 100%; box-sizing: border-box;" else "") ++ "\n    "
  let btnStyles := jsTrim (collapseWs btnRaw)
  let button := "<a href=\"" ++ link ++ "\" style=\"" ++ btnStyles ++ "\" target=\"_blank\">" ++
    escapeHtml (processContent vars text) ++ "</a>"
  wrapInRow button styles

/-- Embeds `renderDivider`. -/
def renderDivider (styles : BlockStyles) (ds : DividerStyles) : String :=
  let hrRaw :=
    "\n      border: none;\n      border-top: " ++ ds.thickness ++ " " ++ ds.style ++ " " ++
    ds.color ++ ";\n      width: " ++ ds.width ++ ";\n      margin: 0 auto;\n    "
  let hrStyles := jsTrim (collapseWs hrRaw)
  wrapInRow ("<hr style=\"" ++ hrStyles ++ "\" />") styles

/-- Embeds `renderSpacer`: the one row whose cell height is the configured
height, with a non-breaking space against collapsing. -/
def renderSpacer (height : String) : String :=
  "<tr>\n        <td style=\"height: " ++ height ++ "; line-height: " ++ height ++
    "; font-size: 1px;\">&nbsp;</td>\n      </tr>"

/-- Embeds `getSocialIcons` (the `iconStyle` argument is unused by the
source as well). -/
def socialIconUrl (platform : String) : Option String :=
  let baseUrl := "https://cdn.jsdelivr.net/npm/simple-icons@v9/icons"
  match platform with
  | "facebook" => some (baseUrl ++ "/facebook.svg")
  | "twitter" => some (baseUrl ++ "/twitter.svg")
  | "instagram" => some (baseUrl ++ "/instagram.svg")
  | "linkedin" => some (baseUrl ++ "/linkedin.svg")
  | "youtube" => some (baseUrl ++ "/youtube.svg")
  | "tiktok" => some (baseUrl ++ "/tiktok.svg")
  | "pinterest" => some (baseUrl ++ "/pinterest.svg")
  | _ => none

/-- Embeds one link of `renderSocial`'s `linksHtml` map. -/
def renderSocialLink (spacing iconSize : String) (l : SocialLink) : String :=
  let icon := (socialIconUrl l.platform).getD l.icon
  "<a href=\"" ++ l.url ++ "\" target=\"_blank\" style=\"display: inline-block; margin: 0 " ++
    spacing ++ ";\">\n            <img src=\"" ++ icon ++ "\" alt=\"" ++ l.platform ++
    "\" width=\"" ++ iconSize ++ "\" height=\"" ++ iconSize ++
    "\" style=\"display: block; border: 0;\" />\n          </a>"

/-- Embeds `renderSocial`. -/
def renderSocial (styles : BlockStyles) (links : List SocialLink)
    (iconSize spacing alignment : String) : String :=
  let linksHtml := String.join (links.map (renderSocialLink spacing iconSize))
  wrapInRow
    ("<div style=\"text-align: " ++ alignment ++ ";\">" ++ linksHtml ++ "</div>")
    styles

/-- Tests whether `pat` starts the list (plain prefix test used by the video
URL scanners). -/
def startsList (pat cs : List Char) : Bool :=
  cs.take pat.length = pat

/-- Scans for the leftmost match of
`(?:youtube\.com\/watch\?v=|youtu\.be\/)([^&]+)`: at each position the two
alternatives are tried left to right, and the capture must be nonempty. -/
def ytScan : List Char → Option String
  | [] => none
  | c :: cs =>
    let here : List Char := c :: cs
    let tryAt : List Char → Option String := fun pat =>
      if startsList pat here then
        let cap := (here.drop pat.length).takeWhile (· ≠ '&')
        if cap ≠ [] then some cap.asString else none
      else none
    match tryAt "youtube.com/watch?v=".toList with
    | some v => some v
    | none =>
      match tryAt "youtu.be/".toList with
      | some v => some v
      | none => ytScan cs

/-- Scans for the leftmost match of `vimeo\.com\/(\d+)`. -/
def vimeoScan : List Char → Option String
  | [] => none
  | c :: cs =>
    let here : List Char := c :: cs
    let pat := "vimeo.com/".toList
    if startsList pat here then
      let cap := (here.drop pat.length).takeWhile Char.isDigit
      if cap ≠ [] then some cap.asString else vimeoScan cs
    else vimeoScan cs

/-- Embeds `getVideoThumbnail(url)`. -/
def getVideoThumbnail (url : String) : String :=
  match ytScan url.toList with
  | some vid => "https://img.youtube.com/vi/" ++ vid ++ "/maxresdefault.jpg"
  | none =>
    match vimeoScan url.toList with
    | some vid => "https://vumbnail.com/" ++ vid ++ ".jpg"
    | none => ""

/-- Embeds `renderVideo` (`getVideoLink` is the identity in the source). -/
def renderVideo (styles : BlockStyles) (videoUrl thumbnailUrl playButtonColor : String) : String :=
  let thumb := if thumbnailUrl ≠ "" then thumbnailUrl else getVideoThumbnail videoUrl
  if videoUrl = "" then
    wrapInRow
      "<div style=\"background: #f3f4f6; padding: 60px; text-align: center; color: #9ca3af;\">Click to add video</div>"
      styles
  else
    wrapInRow
      ("<a href=\"" ++ videoUrl ++
        "\" target=\"_blank\" style=\"display: block; position: relative;\">\n          <img src=\"" ++
        thumb ++
        "\" alt=\"Video thumbnail\" style=\"display: block; width: 100%; height: auto;\" />\n          <div style=\"position: absolute; top: 50%; left: 50%; transform: translate(-50%, -50%); width: 60px; height: 60px; background: " ++
        playButtonColor ++
        "; border-radius: 50%; display: flex; align-items: center; justify-content: center;\">\n            <div style=\"width: 0; height: 0; border-left: 20px solid white; border-top: 12px solid transparent; border-bottom: 12px solid transparent; margin-left: 5px;\"></div>\n          </div>\n        </a>")
      styles

/-- Embeds `renderHtml`: the raw content is emitted verbatim (no escaping,
no substitution). -/
def renderHtmlBlock (styles : BlockStyles) (content : String) : String :=
  wrapInRow content styles

/-- Embeds one item of `renderMenu` (`index` relative to `items.length`
decides whether the separator follows). -/
def renderMenuItem (vars : VarMap) (isHorizontal : Bool) (sepStr : String)
    (itemCount : Nat) (idx : Nat) (item : MenuItem) : String :=
  let link := "<a href=\"" ++ item.link ++ "\" style=\"color: inherit; text-decoration: none;\">" ++
    escapeHtml (processContent vars item.text) ++ "</a>"
  if isHorizontal then
    link ++ (if idx + 1 < itemCount then sepStr else "")
  else
    "<div>" ++ link ++ "</div>"

/-- Embeds `renderMenu`. -/
def renderMenu (vars : VarMap) (styles : BlockStyles) (items : List MenuItem)
    (separator layout : String) : String :=
  let isHorizontal := layout = "horizontal"
  let sepStr := if separator ≠ "" then " " ++ separator ++ " " else ""
  let itemsHtml := String.join
    (items.enum.map (fun p => renderMenuItem vars isHorizontal sepStr items.length p.1 p.2))
  wrapInRow itemsHtml styles

/-- Embeds `renderFooter`: note the source substitutes the assembled html a
second time through `processContent`. -/
def renderFooter (vars : VarMap) (styles : BlockStyles) (content : String)
    (showUnsubscribe showAddress : Bool) (address : String) : String :=
  let c := processContent vars content
  let html := "<div>" ++ c ++ "</div>" ++
    (if showAddress ∧ address ≠ "" then
      "<div style=\"margin-top: 10px;\">" ++ escapeHtml (processContent vars address) ++ "</div>"
     else "") ++
    (if showUnsubscribe then
      "<div style=\"margin-top: 10px;\"><a href=\"\x7b\x7b unsubscribe_link \x7d\x7d\" style=\"color: inherit;\">Unsubscribe</a></div>"
     else "")
  wrapInRow (processContent vars html) styles

/-- Embeds `renderHeader`. -/
def renderHeader (vars : VarMap) (styles : BlockStyles)
    (showWebVersion : Bool) (webVersionText : String) : String :=
  let html :=
    if showWebVersion ∧ webVersionText ≠ "" then
      "<a href=\"\x7b\x7b view_in_browser_link \x7d\x7d\" style=\"color: inherit;\">" ++
        escapeHtml webVersionText ++ "</a>"
    else ""
  wrapInRow (processContent vars html) styles

/-- Embeds `renderLogo`. -/
def renderLogo (styles : BlockStyles) (src alt link width alignment : String) : String :=
  if src = "" then
    wrapInRow
      "<div style=\"background: #f3f4f6; padding: 20px; text-align: center; color: #9ca3af;\">Click to add logo</div>"
      styles
  else
    let imgStyles := "display: block; width: " ++ width ++ "; height: auto; margin: 0 " ++
      (if alignment = "center" then "auto"
       else if alignment = "right" then "0 0 auto" else "auto 0 0") ++ ";"
    let img := "<img src=\"" ++ src ++ "\" alt=\"" ++ escapeHtml alt ++ "\" style=\"" ++
      imgStyles ++ "\" />"
    let content :=
      if link ≠ "" then "<a href=\"" ++ link ++ "\" target=\"_blank\">" ++ img ++ "</a>"
      else img
    wrapInRow content styles

/-- Embeds `renderList`. -/
def renderList (vars : VarMap) (styles : BlockStyles) (items : List ListItem)
    (listType bulletStyle : String) : String :=
  let tag := if listType = "ordered" then "ol" else "ul"
  let listStyle :=
    if bulletStyle ≠ "" then bulletStyle
    else if listType = "ordered" then "decimal" else "disc"
  let itemsHtml := String.join
    (items.map (fun item => "<li>" ++ processContent vars item.content ++ "</li>"))
  wrapInRow
    ("<" ++ tag ++ " style=\"margin: 0; padding-left: 20px; list-style-type: " ++ listStyle ++
      ";\">" ++ itemsHtml ++ "</" ++ tag ++ ">")
    styles

/-- The row template of `renderColumns(block)` around the rendered columns:
one row holding the Outlook conditional fallback and the fixed-layout
nested table. -/
def renderColumnsShell (styles : BlockStyles) (columnsHtml : String) : String :=
  "<tr>\n        <td style=\"" ++ stylesToCss styles ++
    "\">\n          <!--[if mso]>\n          <table role=\"presentation\" border=\"0\" cellpadding=\"0\" cellspacing=\"0\" width=\"100%\">\n          <tr>\n          <![endif]-->\n          <table border=\"0\" cellpadding=\"0\" cellspacing=\"0\" width=\"100%\" style=\"table-layout: fixed;\">\n            <tr>\n              " ++
    columnsHtml ++
    "\n            </tr>\n          </table>\n          <!--[if mso]>\n          </tr>\n          </table>\n          <![endif]-->\n        </td>\n      </tr>"

mutual

/-- Embeds `renderBlock(block)`: dispatch on the type tag; the `default`
branch (reached only by a bare `column` block, which the switch does not
handle) returns the empty string.  The `columns` case is `renderColumns`. -/
def renderBlock (vars : VarMap) : Block → String
  | .leaf _ st (.text c) => renderText vars st c
  | .leaf _ st (.heading c lv) => renderHeading vars st c lv
  | .leaf _ st (.image src alt link width) => renderImage st src alt link width
  | .leaf _ st (.button t l bs) => renderButton vars st t l bs
  | .leaf _ st (.divider ds) => renderDivider st ds
  | .leaf _ _st (.spacer h) => renderSpacer h
  | .leaf _ st (.social links iconSize _ spacing alignment) =>
    renderSocial st links iconSize spacing alignment
  | .leaf _ st (.video u t p) => renderVideo st u t p
  | .leaf _ st (.html c) => renderHtmlBlock st c
  | .leaf _ st (.menu items sep layout) => renderMenu vars st items sep layout
  | .leaf _ st (.footer c su sa ad) => renderFooter vars st c su sa ad
  | .leaf _ st (.header swv wvt) => renderHeader vars st swv wvt
  | .leaf _ st (.logo src alt link width alignment) => renderLogo st src alt link width alignment
  | .leaf _ st (.list items lt bs) => renderList vars st items lt bs
  | .columnsB _ st _ sm _ cols => renderColumnsShell st (renderColumnList vars sm cols)
  | .columnB _ _ _ _ => ""

/-- The `block.columns.map(column => …).join('')` of `renderColumns`. -/
def renderColumnList (vars : VarMap) (stackOnMobile : Bool) : List Block → String
  | [] => ""
  | c :: cs => renderColumnCell vars stackOnMobile c ++ renderColumnList vars stackOnMobile cs

/-- One column `<td>` of `renderColumns`.  A non-`column` entry (impossible
in a well-formed tree; the source would read `undefined` fields) is rendered
with empty width, styles and children. -/
def renderColumnCell (vars : VarMap) (stackOnMobile : Bool) : Block → String
  | .columnB _ cst w ch =>
    let columnStyles := "width: " ++ w ++ "; " ++ stylesToCss cst ++ "; vertical-align: " ++
      (match styleGet cst "verticalAlign" with
       | some v => if v = "" then "top" else v
       | none => "top") ++ ";"
    "<td class=\"" ++ (if stackOnMobile then "stack-column" else "") ++ "\" style=\"" ++
      columnStyles ++
      "\">\n            <table border=\"0\" cellpadding=\"0\" cellspacing=\"0\" width=\"100%\">\n              " ++
      renderChildren vars ch ++
      "\n            </table>\n          </td>"
  | _ =>
    "<td class=\"" ++ (if stackOnMobile then "stack-column" else "") ++
      "\" style=\"width: ; ; vertical-align: top;\">\n            <table border=\"0\" cellpadding=\"0\" cellspacing=\"0\" width=\"100%\">\n              \n            </table>\n          </td>"

/-- The `column.children.map(child => this.renderBlock(child)).join('')` of
`renderColumns`. -/
def renderChildren (vars : VarMap) : List Block → String
  | [] => ""
  | b :: bs => renderBlock vars b ++ renderChildren vars bs

end

/-- Embeds `getBodyStyles()`. -/
def getBodyStyles (es : EmailStyles) : String :=
  "margin: 0; padding: 0; background-color: " ++ es.body.backgroundColor ++
    "; font-family: " ++ es.body.fontFamily ++ "; font-size: " ++ es.body.fontSize ++
    "; line-height: " ++ es.body.lineHeight ++ "; color: " ++ es.body.color ++ ";"

/-- Embeds `getContainerStyles()`. -/
def getContainerStyles (es : EmailStyles) : String :=
  "background-color: " ++ es.container.backgroundColor ++
    (if es.container.borderRadius ≠ "" then "; border-radius: " ++ es.container.borderRadius
     else "") ++
    (if es.container.padding ≠ "" then "; padding: " ++ es.container.padding else "")

/-- Embeds `createEmailWrapper` of `src/utils/html.ts` (the repository holds
two concatenated drafts of that file; this is the first.  The claims under
verification only exercise the wrapper-free render path). -/
def createEmailWrapper (content bodyStyles containerStyles maxWidth : String) : String :=
  "<!DOCTYPE html>\n<html lang=\"en\" xmlns=\"http://www.w3.org/1999/xhtml\" xmlns:v=\"urn:schemas-microsoft-com:vml\" xmlns:o=\"urn:schemas-microsoft-com:office:office\">\n<head>\n  <meta charset=\"utf-8\">\n  <meta name=\"viewport\" content=\"width=device-width, initial-scale=1\">\n  <meta http-equiv=\"X-UA-Compatible\" content=\"IE=edge\">\n  <meta name=\"x-apple-disable-message-reformatting\">\n  <meta name=\"format-detection\" content=\"telephone=no,address=no,email=no,date=no,url=no\">\n  <title></title>\n  <!--[if mso]>\n  <noscript>\n    <xml>\n      <o:OfficeDocumentSettings>\n        <o:AllowPNG/>\n        <o:PixelsPerInch>96</o:PixelsPerInch>\n      </o:OfficeDocumentSettings>\n    </xml>\n  </noscript>\n  <![endif]-->\n</head>\n<body style=\"" ++
    bodyStyles ++
    " box-sizing: border-box; width: 100%; word-break: break-word; -webkit-font-smoothing: antialiased;\">\n  <center style=\"width: 100%; background: inherit;\">\n    <!--[if mso | IE]>\n    <table role=\"presentation\" border=\"0\" cellpadding=\"0\" cellspacing=\"0\" width=\"100%\" style=\"background: inherit; border-collapse: collapse; mso-table-lspace: 0pt; mso-table-rspace: 0pt;\">\n    <tr>\n    <td style=\"border-collapse: collapse;\">  \n    <![endif]-->\n    <table class=\"email-container\" role=\"presentation\" border=\"0\" cellpadding=\"0\" cellspacing=\"0\" style=\"margin: 0 auto; " ++
    containerStyles ++ "; max-width: " ++ maxWidth ++
    "; border-collapse: collapse; mso-table-lspace: 0pt; mso-table-rspace: 0pt;\" width=\"" ++
    stripPx maxWidth ++
    "\">\n      " ++ content ++
    "\n    </table>\n    <!--[if mso | IE]>\n    </td>\n    </tr>\n    </table>\n    <![endif]-->\n  </center>\n</body>\n</html>"

/-- Embeds `EmailRenderer.render(blocks, options)`: the per-block rows
joined with newlines, wrapped in the full document only when
`includeWrapper` (the `inlineStyles` and `minify` options are never read by
the source). -/
def render (vars : VarMap) (es : EmailStyles) (blocks : List Block)
    (includeWrapper : Bool) : String :=
  let content := String.intercalate "\n" (blocks.map (renderBlock vars))
  if !includeWrapper then content
  else createEmailWrapper content (getBodyStyles es) (getContainerStyles es)
    es.container.maxWidth

/-- Embeds the `EmailRenderer` constructor's binding map:
`new Map(variables.map(v => [v.key, v.defaultValue]))`. -/
def varsOfVariables (vs : List Variable) : VarMap :=
  vs.map (fun v => (v.key, v.defaultValue))

/-! ## Drag-and-drop targeting (`DragDropManager`, `part_007`)

The geometry side of the manager is pure data: the rectangles cached at
drag start and the pointer coordinates.  Coordinates are modelled as
rationals (JS numbers under the operations used: comparison and halving).
The DOM bookkeeping (ghost element, indicator lines, CSS classes) has no
bearing on the resolved target or the issued store mutation and is not
modelled. -/

/-- The drag payload (`DragData`): a `'new-block'` drag carries a block
type, an `'existing-block'` drag a block id and its cached top-level
source index. -/
inductive DragKind : Type where
  | newBlock | existingBlock
  deriving DecidableEq, Repr

/-- The `DragData` record (optional fields as in the source). -/
structure DragData where
  kind : DragKind
  blockType : Option BlockType
  blockId : Option Id
  sourceIndex : Option Nat
  deriving DecidableEq, Repr

/-- A cached top-level (or in-column) block rectangle (`BlockRect`). -/
structure BlockRect where
  id : Id
  index : Nat
  top : ℚ
  bottom : ℚ
  height : ℚ
  deriving DecidableEq, Repr

/-- A cached column drop-zone rectangle (`ColumnRect`). -/
structure ColumnRect where
  id : Id
  parentBlockId : Id
  left : ℚ
  right : ℚ
  top : ℚ
  bottom : ℚ
  childRects : List BlockRect
  deriving DecidableEq, Repr

/-- A resolved drop target (`DropTarget`, minus its DOM element). -/
structure DropTarget where
  blockId : Id
  index : Nat
  position : DropPosition
  parentId : Option Id
  deriving DecidableEq, Repr

/-- The dragged block's id, `this.dragData?.blockId`. -/
def dragBlockId (dragData : Option DragData) : Option Id :=
  dragData.bind (·.blockId)

/-- The child-scanning loop of `findColumnTarget`: skip the dragged block;
the first remaining child whose bottom lies below the pointer is the
target, before or after it by the midpoint rule. -/
def findChildTarget (dragId : Option Id) (colId : Id) (y : ℚ) :
    List BlockRect → Option DropTarget
  | [] => none
  | r :: rs =>
    if dragId = some r.id then findChildTarget dragId colId y rs
    else if y < r.bottom then
      some
        { blockId := r.id
          index := r.index
          position := if y < r.top + r.height / 2 then .before else .after
          parentId := some colId }
    else findChildTarget dragId colId y rs

/-- Embeds `findColumnTarget(x, y)`: the first cached column zone containing
the pointer wins; inside it, either a child target or the `'inside'` target
at the end of the column's list. -/
def findColumnTarget (dragData : Option DragData) (columnRects : List ColumnRect)
    (x y : ℚ) : Option DropTarget :=
  match columnRects with
  | [] => none
  | column :: rest =>
    if column.left ≤ x ∧ x ≤ column.right ∧ column.top ≤ y ∧ y ≤ column.bottom then
      match findChildTarget (dragBlockId dragData) column.id y column.childRects with
      | some t => some t
      | none =>
        some
          { blockId := column.id
            index := column.childRects.length
            position := .inside
            parentId := some column.id }
    else findColumnTarget dragData rest x y

/-- The top-level scanning loop of `updateDropTarget`: skip the dragged
block; the first remaining rectangle whose bottom lies below the pointer is
the target, before or after it by the midpoint rule. -/
def findTopTarget (dragId : Option Id) (y : ℚ) : List BlockRect → Option DropTarget
  | [] => none
  | r :: rs =>
    if dragId = some r.id then findTopTarget dragId y rs
    else if y < r.bottom then
      some
        { blockId := r.id
          index := r.index
          position := if y < r.top + r.height / 2 then .before else .after
          parentId := none }
    else findTopTarget dragId y rs

/-- Embeds the target computation of `updateDropTarget(x, y)`: a column
target (tested first) wins; otherwise, on a non-empty canvas, the top-level
scan, falling back to `'after'` the last block when the pointer is past
every block (unless the last block is the dragged one).  On an empty canvas
the resolved target is `none`. -/
def updateDropTarget (dragData : Option DragData) (blockRects : List BlockRect)
    (columnRects : List ColumnRect) (x y : ℚ) : Option DropTarget :=
  match findColumnTarget dragData columnRects x y with
  | some t => some t
  | none =>
    if blockRects.isEmpty then none
    else
      match findTopTarget (dragBlockId dragData) y blockRects with
      | some t => some t
      | none =>
        match blockRects.getLast? with
        | some last =>
          if dragBlockId dragData = some last.id then none
          else
            some
              { blockId := last.id
                index := last.index
                position := .after
                parentId := none }
        | none => none

/-- The store mutation a drop release issues: nothing, `addBlock` of a
freshly created block of the given type at an index (with an optional
parent column), or `moveBlock` of an existing block. -/
inductive DropAction : Type where
  | noop
  | add (blockType : BlockType) (index : Nat) (parentId : Option Id)
  | move (blockId : Id) (index : Nat) (parentId : Option Id)
  deriving DecidableEq, Repr

/-- Embeds `handleColumnDrop`: `'after'` adds one to the index; a new-block
payload of type `columns` is rejected; otherwise `addBlock` or `moveBlock`
into the column. -/
def handleColumnDrop (dd : DragData) (t : DropTarget) (pid : Id) : DropAction :=
  let targetIndex := t.index + (if t.position = .after then 1 else 0)
  match dd.kind, dd.blockType, dd.blockId with
  | .newBlock, some bt, _ =>
    if bt = .columns then .noop
    else .add bt targetIndex (some pid)
  | .existingBlock, _, some bid => .move bid targetIndex (some pid)
  | _, _, _ => .noop

/-- Embeds the drop-release decision of `handleDrop`, as a function of the
drag payload, the resolved target and the number of cached top-level
rectangles: the column branch first; then the empty-canvas branch; then the
top-level index arithmetic with its same-position skip and its
moving-down decrement (`sourceIndex` enters as `?? -1`). -/
def handleDrop (dragData : Option DragData) (currentTarget : Option DropTarget)
    (blockRectsLen : Nat) : DropAction :=
  match dragData with
  | none => .noop
  | some dd =>
    match currentTarget.bind (·.parentId), currentTarget with
    | some pid, some t => handleColumnDrop dd t pid
    | _, _ =>
      if blockRectsLen = 0 then
        match dd.kind, dd.blockType with
        | .newBlock, some bt => .add bt 0 none
        | _, _ => .noop
      else
        match currentTarget with
        | none => .noop
        | some t =>
          let targetIndex : Int := t.index + (if t.position = .after then 1 else 0)
          match dd.kind, dd.blockType, dd.blockId with
          | .existingBlock, _, some bid =>
            let sourceIndex : Int := (dd.sourceIndex.map Int.ofNat).getD (-1)
            if sourceIndex = targetIndex ∨
                (sourceIndex = targetIndex - 1 ∧ t.position = .after) then .noop
            else
              let finalIndex : Int :=
                if 0 ≤ sourceIndex ∧ sourceIndex < targetIndex then targetIndex - 1
                else targetIndex
              .move bid finalIndex.toNat none
          | .newBlock, some bt, _ => .add bt targetIndex.toNat none
          | _, _, _ => .noop

/-! ## Analysis helpers (not part of the source; used to state theorems) -/

mutual

/-- Every node id of the forest, in preorder: each block's id, each
column's id and recursively each child's. -/
def treeIds : List Block → List Id
  | [] => []
  | b :: bs => blockTreeIds b ++ treeIds bs

/-- The node ids of one block's subtree. -/
def blockTreeIds : Block → List Id
  | .leaf i _ _ => [i]
  | .columnsB i _ _ _ _ cols => i :: colsTreeIds cols
  | .columnB i _ _ ch => i :: treeIds ch

/-- The node ids of a `columns` block's column list. -/
def colsTreeIds : List Block → List Id
  | [] => []
  | c :: cs => blockTreeIds c ++ colsTreeIds cs

end

/-- A block with its recursive substructure erased: used to speak about
"the block's own content" independently of where its descendants sit. -/
def shallow : Block → Block
  | .leaf i st d => .leaf i st d
  | .columnsB i st g sm mr _ => .columnsB i st g sm mr []
  | .columnB i st w _ => .columnB i st w []

mutual

/-- Every node of the forest as a shallow record, in preorder. -/
def nodesOf : List Block → List Block
  | [] => []
  | b :: bs => blockNodes b ++ nodesOf bs

/-- The shallow nodes of one block's subtree. -/
def blockNodes : Block → List Block
  | .leaf i st d => [.leaf i st d]
  | .columnsB i st g sm mr cols => .columnsB i st g sm mr [] :: colsNodes cols
  | .columnB i st w ch => .columnB i st w [] :: nodesOf ch

/-- The shallow nodes of a `columns` block's column list. -/
def colsNodes : List Block → List Block
  | [] => []
  | c :: cs => blockNodes c ++ colsNodes cs

end

/-- Whether a structural mutation pushes a history snapshot on every state
(`moveBlock` and `duplicateBlock` return early on a missing id; the other
four always push). -/
def Op.alwaysPushes : Op → Bool
  | .moveBlock _ _ _ => false
  | .duplicateBlock _ _ => false
  | _ => true

/-- The snapshots a mutation sequence pushes when every mutation pushes:
the tree as it was immediately before each mutation, most recent first. -/
def preStatesRev (s : EditorState) : List Op → List (List Block)
  | [] => []
  | op :: ops => preStatesRev (applyOp s op) ops ++ [s.blocks]

/-- One segment of the decomposition of a string under the leftmost
`VARIABLE_PATTERN` scan: a raw character at which no match starts, or a
matched token split into its whitespace runs and key. -/
inductive Seg : Type where
  | raw (c : Char)
  | tok (ws1 key ws2 : String)
  deriving DecidableEq, Repr

/-- The source text a segment stands for. -/
def Seg.source : Seg → String
  | .raw c => String.singleton c
  | .tok ws1 key ws2 => matchSource ws1 key ws2

/-- What `replaceVariables` emits for a segment: a bound key becomes its
value, an unbound token stays (or is deleted without fallback), raw text is
kept. -/
def Seg.render (m : VarMap) (fallbackToDefault : Bool) : Seg → String
  | .raw c => String.singleton c
  | .tok ws1 key ws2 =>
    match varGet m key with
    | some v => v
    | none => if fallbackToDefault then matchSource ws1 key ws2 else ""

/-- The tokenisation underlying `replaceVariables`: the same leftmost scan,
recording segments instead of emitting output. -/
def tokenizeGo : Nat → List Char → List Seg
  | 0, _ => []
  | _ + 1, [] => []
  | fuel + 1, c :: cs =>
    match matchVar (c :: cs) with
    | some ((ws1, key, ws2), rest) => .tok ws1 key ws2 :: tokenizeGo fuel rest
    | none => .raw c :: tokenizeGo fuel cs

/-- Tokenises a string by the leftmost `VARIABLE_PATTERN` scan. -/
def tokenize (s : String) : List Seg :=
  tokenizeGo s.toList.length s.toList

/-- Rebuilds the source text of a segment list. -/
def segsSource : List Seg → String
  | [] => ""
  | seg :: segs => seg.source ++ segsSource segs

/-- Renders a segment list the way `replaceVariables` does. -/
def segsRender (m : VarMap) (fallbackToDefault : Bool) : List Seg → String
  | [] => ""
  | seg :: segs => seg.render m fallbackToDefault ++ segsRender m fallbackToDefault segs

/-- Whether a string is whitespace-only (the `\s*` runs of a token). -/
def allJsWs (s : String) : Bool :=
  s.toList.all isJsWs

/-- Whether a string is a `VARIABLE_PATTERN` identifier:
`[a-zA-Z_][a-zA-Z0-9_]*`. -/
def isIdent (s : String) : Bool :=
  match s.toList with
  | [] => false
  | c :: cs => isIdentStart c && cs.all isIdentChar

/-- Whether `insertBlockInTree` with this `parentId` can splice anywhere:
some column entry of some top-level `columns` block is a `column` with the
given id.  (The source's insertion path looks nowhere else for columns.) -/
def hasInsertableColumn (pid : Id) (blocks : List Block) : Bool :=
  blocks.any fun b =>
    match b with
    | .columnsB _ _ _ _ _ cols =>
      cols.any fun c =>
        match c with
        | .columnB j _ _ _ => j = pid
        | _ => false
    | _ => false

/-- The invariant the history satisfies while a mutation sequence of length
at most `m` runs from a state whose initial tree was `b0` and whose history
was empty: no redo stack, at most `m` snapshots, and the oldest snapshot
(or, with no snapshots, the live tree) is the initial tree. -/
def HistoryInv (b0 : List Block) (m : Nat) (s : EditorState) : Prop :=
  s.history.future = [] ∧
  s.history.past.length ≤ m ∧
  (s.history.past = [] → s.blocks = b0) ∧
  (∀ x ∈ s.history.past.getLast?, x = b0)

mutual

/-- A block with every id in its subtree replaced by `0`: two blocks are
"structurally identical except for ids" exactly when their `stripIdsB`
images are equal. -/
def stripIdsB : Block → Block
  | .leaf _ st d => .leaf 0 st d
  | .columnsB _ st g sm mr cols => .columnsB 0 st g sm mr (stripIdsL cols)
  | .columnB _ st w ch => .columnB 0 st w (stripIdsL ch)

/-- List version of `stripIdsB`. -/
def stripIdsL : List Block → List Block
  | [] => []
  | b :: bs => stripIdsB b :: stripIdsL bs

end

mutual

/-- The data model's two-level shape for one top-level block: a leaf, or a
`columns` block whose entries are `column` blocks with leaf children. -/
def wfBlock : Block → Bool
  | .leaf _ _ _ => true
  | .columnsB _ _ _ _ _ cols => wfCols cols
  | .columnB _ _ _ _ => false

/-- The entries of a well-formed `columns` block. -/
def wfCols : List Block → Bool
  | [] => true
  | .columnB _ _ _ ch :: cs => wfChildren ch && wfCols cs
  | _ :: _ => false

/-- The children of a well-formed column: leaves only. -/
def wfChildren : List Block → Bool
  | [] => true
  | .leaf _ _ _ :: bs => wfChildren bs
  | _ :: _ => false

end

/-- The common row shape every rendered block produces: a single
`<tr>` element holding a single styled `<td>`. -/
def rowShape (css inner : String) : String :=
  "<tr>\n        <td style=\"" ++ css ++ "\">" ++ inner ++ "</td>\n      </tr>"

/-! ## Lemmas: lookups and mutations on ids that are absent from the tree -/

mutual

/-- A lookup of an id that occurs nowhere in the forest fails. -/
theorem findBlockById_none (i : Id) : ∀ bs : List Block, i ∉ treeIds bs →
    findBlockById i bs = none
  | [], _ => rfl
  | b :: bs, h => by
    simp only [treeIds, List.mem_append] at h
    push_neg at h
    simp [findBlockById, findBlockHere_none i b h.1, findBlockById_none i bs h.2]

/-- One-block version of `findBlockById_none`. -/
theorem findBlockHere_none (i : Id) : ∀ b : Block, i ∉ blockTreeIds b →
    findBlockHere i b = none
  | .leaf j st d, h => by
    simp only [blockTreeIds, List.mem_singleton] at h
    simp [findBlockHere, Ne.symm h]
  | .columnsB j st g sm mr cols, h => by
    simp only [blockTreeIds, List.mem_cons] at h
    push_neg at h
    simp [findBlockHere, Ne.symm h.1, findInColumns_none i cols h.2]
  | .columnB j st w ch, h => by
    simp only [blockTreeIds, List.mem_cons] at h
    push_neg at h
    simp [findBlockHere, Ne.symm h.1]

/-- Column-list version of `findBlockById_none`. -/
theorem findInColumns_none (i : Id) : ∀ cs : List Block, i ∉ colsTreeIds cs →
    findInColumns i cs = none
  | [], _ => rfl
  | c :: cs, h => by
    simp only [colsTreeIds, List.mem_append] at h
    push_neg at h
    simp [findInColumns, findInColumn_none i c h.1, findInColumns_none i cs h.2]

/-- One-column version of `findBlockById_none`. -/
theorem findInColumn_none (i : Id) : ∀ c : Block, i ∉ blockTreeIds c →
    findInColumn i c = none
  | .leaf j st d, h => by
    simp only [blockTreeIds, List.mem_singleton] at h
    simp [findInColumn, Ne.symm h]
  | .columnsB j st g sm mr cols, h => by
    simp only [blockTreeIds, List.mem_cons] at h
    push_neg at h
    simp [findInColumn, Ne.symm h.1]
  | .columnB j st w ch, h => by
    simp only [blockTreeIds, List.mem_cons] at h
    push_neg at h
    simp [findInColumn, Ne.symm h.1, findBlockById_none i ch h.2]

end

mutual

/-- Updating an id that occurs nowhere in the forest leaves it unchanged. -/
theorem updateBlockInTree_noop (i : Id) (u : BlockUpdates) :
    ∀ bs : List Block, i ∉ treeIds bs → updateBlockInTree i u bs = bs
  | [], _ => rfl
  | b :: bs, h => by
    simp only [treeIds, List.mem_append] at h
    push_neg at h
    simp [updateBlockInTree, updateTopBlock_noop i u b h.1,
      updateBlockInTree_noop i u bs h.2]

/-- One-block version of `updateBlockInTree_noop`. -/
theorem updateTopBlock_noop (i : Id) (u : BlockUpdates) :
    ∀ b : Block, i ∉ blockTreeIds b → updateTopBlock i u b = b
  | .leaf j st d, h => by
    simp only [blockTreeIds, List.mem_singleton] at h
    simp [updateTopBlock, Ne.symm h]
  | .columnsB j st g sm mr cols, h => by
    simp only [blockTreeIds, List.mem_cons] at h
    push_neg at h
    simp [updateTopBlock, Ne.symm h.1, updateInColumns_noop i u cols h.2]
  | .columnB j st w ch, h => by
    simp only [blockTreeIds, List.mem_cons] at h
    push_neg at h
    simp [updateTopBlock, Ne.symm h.1]

/-- Column-list version of `updateBlockInTree_noop`. -/
theorem updateInColumns_noop (i : Id) (u : BlockUpdates) :
    ∀ cs : List Block, i ∉ colsTreeIds cs → updateInColumns i u cs = cs
  | [], _ => rfl
  | c :: cs, h => by
    simp only [colsTreeIds, List.mem_append] at h
    push_neg at h
    simp [updateInColumns, updateColumnEntry_noop i u c h.1,
      updateInColumns_noop i u cs h.2]

/-- One-column version of `updateBlockInTree_noop`. -/
theorem updateColumnEntry_noop (i : Id) (u : BlockUpdates) :
    ∀ c : Block, i ∉ blockTreeIds c → updateColumnEntry i u c = c
  | .leaf j st d, h => by
    simp only [blockTreeIds, List.mem_singleton] at h
    simp [updateColumnEntry, Ne.symm h]
  | .columnsB j st g sm mr cols, h => by
    simp only [blockTreeIds, List.mem_cons] at h
    push_neg at h
    simp [updateColumnEntry, Ne.symm h.1]
  | .columnB j st w ch, h => by
    simp only [blockTreeIds, List.mem_cons] at h
    push_neg at h
    simp [updateColumnEntry, Ne.symm h.1, updateBlockInTree_noop i u ch h.2]

end

/-- A block's own id is among its subtree's ids. -/
theorem blockId_mem_blockTreeIds : ∀ b : Block, b.id ∈ blockTreeIds b
  | .leaf _ _ _ => by simp [blockTreeIds, Block.id]
  | .columnsB _ _ _ _ _ _ => by simp [blockTreeIds, Block.id]
  | .columnB _ _ _ _ => by simp [blockTreeIds, Block.id]

mutual

/-- Deleting an id that occurs nowhere in the forest leaves it unchanged. -/
theorem deleteBlockFromTree_noop (i : Id) :
    ∀ bs : List Block, i ∉ treeIds bs → deleteBlockFromTree i bs = bs
  | [], _ => rfl
  | b :: bs, h => by
    simp only [treeIds, List.mem_append] at h
    push_neg at h
    have hid : b.id ≠ i := fun e => h.1 (e ▸ blockId_mem_blockTreeIds b)
    simp [deleteBlockFromTree, hid, deleteSurvivor_noop i b h.1,
      deleteBlockFromTree_noop i bs h.2]

/-- One-block version of `deleteBlockFromTree_noop`. -/
theorem deleteSurvivor_noop (i : Id) :
    ∀ b : Block, i ∉ blockTreeIds b → deleteSurvivor i b = b
  | .leaf j st d, _ => rfl
  | .columnsB j st g sm mr cols, h => by
    simp only [blockTreeIds, List.mem_cons] at h
    push_neg at h
    simp [deleteSurvivor, deleteInColumns_noop i cols h.2]
  | .columnB j st w ch, _ => rfl

/-- Column-list version of `deleteBlockFromTree_noop`. -/
theorem deleteInColumns_noop (i : Id) :
    ∀ cs : List Block, i ∉ colsTreeIds cs → deleteInColumns i cs = cs
  | [], _ => rfl
  | c :: cs, h => by
    simp only [colsTreeIds, List.mem_append] at h
    push_neg at h
    simp [deleteInColumns, deleteColumnEntry_noop i c h.1,
      deleteInColumns_noop i cs h.2]

/-- One-column version of `deleteBlockFromTree_noop`. -/
theorem deleteColumnEntry_noop (i : Id) :
    ∀ c : Block, i ∉ blockTreeIds c → deleteColumnEntry i c = c
  | .leaf j st d, _ => rfl
  | .columnsB j st g sm mr cols, _ => rfl
  | .columnB j st w ch, h => by
    simp only [blockTreeIds, List.mem_cons] at h
    push_neg at h
    simp [deleteColumnEntry, deleteBlockFromTree_noop i ch h.2]

end

/-! ## Lemmas: characterising delete, insert and lookup at a known position -/

/-- `treeIds` distributes over appending forests. -/
theorem treeIds_append (l1 l2 : List Block) :
    treeIds (l1 ++ l2) = treeIds l1 ++ treeIds l2 := by
  induction l1 with
  | nil => simp [treeIds]
  | cons b bs ih => simp [treeIds, ih]

/-- `colsTreeIds` distributes over appending column lists. -/
theorem colsTreeIds_append (l1 l2 : List Block) :
    colsTreeIds (l1 ++ l2) = colsTreeIds l1 ++ colsTreeIds l2 := by
  induction l1 with
  | nil => simp [colsTreeIds]
  | cons c cs ih => simp [colsTreeIds, ih]

/-- Looking a block up by its own id at the head position succeeds and
returns the block itself. -/
theorem findBlockHere_self : ∀ b : Block, findBlockHere b.id b = some b
  | .leaf j st d => by simp [findBlockHere, Block.id]
  | .columnsB j st g sm mr cols => by simp [findBlockHere, Block.id]
  | .columnB j st w ch => by simp [findBlockHere, Block.id]

/-- Column version of `findBlockHere_self`. -/
theorem findInColumn_self : ∀ c : Block, findInColumn c.id c = some c
  | .leaf j st d => by simp [findInColumn, Block.id]
  | .columnsB j st g sm mr cols => by simp [findInColumn, Block.id]
  | .columnB j st w ch => by simp [findInColumn, Block.id]

/-- `findBlockById` finds a top-level block whose id does not occur before
it, and returns the block itself. -/
theorem findBlockById_at_top (l1 l2 : List Block) (b : Block)
    (h1 : b.id ∉ treeIds l1) :
    findBlockById b.id (l1 ++ b :: l2) = some b := by
  induction l1 with
  | nil => simp [findBlockById, findBlockHere_self]
  | cons a l1 ih =>
    simp only [treeIds, List.mem_append] at h1
    push_neg at h1
    simp [findBlockById, findBlockHere_none b.id a h1.1, ih h1.2]

/-- `findInColumns` finds a column entry whose id does not occur before it. -/
theorem findInColumns_at (cs1 cs2 : List Block) (c : Block)
    (h1 : c.id ∉ colsTreeIds cs1) :
    findInColumns c.id (cs1 ++ c :: cs2) = some c := by
  induction cs1 with
  | nil => simp [findInColumns, findInColumn_self]
  | cons a cs1 ih =>
    simp only [colsTreeIds, List.mem_append] at h1
    push_neg at h1
    simp [findInColumns, findInColumn_none c.id a h1.1, ih h1.2]

/-- `findBlockById` finds a block nested in a column's children, provided
its id occurs nowhere earlier in the traversal, and returns the block
itself. -/
theorem findBlockById_at_nested (l1 l2 cs1 cs2 c1 c2 : List Block)
    (k cid : Id) (kst cst : BlockStyles) (g w : String) (sm mr : Bool) (b : Block)
    (h1 : b.id ∉ treeIds l1) (hk : b.id ≠ k) (h3 : b.id ∉ colsTreeIds cs1)
    (hc : b.id ≠ cid) (h5 : b.id ∉ treeIds c1) :
    findBlockById b.id
      (l1 ++ .columnsB k kst g sm mr (cs1 ++ .columnB cid cst w (c1 ++ b :: c2) :: cs2) :: l2)
      = some b := by
  induction l1 with
  | nil =>
    have hch : findBlockById b.id (c1 ++ b :: c2) = some b := findBlockById_at_top c1 c2 b h5
    have hcol : findInColumn b.id (.columnB cid cst w (c1 ++ b :: c2)) = some b := by
      simp [findInColumn, Ne.symm hc, hch]
    have hcols : findInColumns b.id (cs1 ++ .columnB cid cst w (c1 ++ b :: c2) :: cs2) = some b := by
      induction cs1 with
      | nil => simp [findInColumns, hcol]
      | cons a cs1 ih =>
        simp only [colsTreeIds, List.mem_append] at h3
        push_neg at h3
        simp [findInColumns, findInColumn_none b.id a h3.1, ih h3.2]
    simp [findBlockById, findBlockHere, Ne.symm hk, hcols]
  | cons a l1 ih =>
    simp only [treeIds, List.mem_append] at h1
    push_neg at h1
    simp [findBlockById, findBlockHere_none b.id a h1.1, ih h1.2]

/-- Deleting an id present at exactly one spot of the top level removes that
block and leaves every other block untouched. -/
theorem deleteBlockFromTree_at_top (l1 l2 : List Block) (b : Block)
    (h1 : b.id ∉ treeIds l1) (h2 : b.id ∉ treeIds l2) :
    deleteBlockFromTree b.id (l1 ++ b :: l2) = l1 ++ l2 := by
  induction l1 with
  | nil => simp [deleteBlockFromTree, deleteBlockFromTree_noop b.id l2 h2]
  | cons a l1 ih =>
    simp only [treeIds, List.mem_append] at h1
    push_neg at h1
    have hid : a.id ≠ b.id := fun e => h1.1 (e ▸ blockId_mem_blockTreeIds a)
    simp [deleteBlockFromTree, hid, deleteSurvivor_noop b.id a h1.1, ih h1.2]

/-- Deleting below an untouched top-level spine rewrites only the one named
block. -/
theorem deleteBlockFromTree_middle (l1 l2 : List Block) (x : Block) (i : Id)
    (h1 : i ∉ treeIds l1) (h2 : i ∉ treeIds l2) (hx : x.id ≠ i) :
    deleteBlockFromTree i (l1 ++ x :: l2) = l1 ++ deleteSurvivor i x :: l2 := by
  induction l1 with
  | nil => simp [deleteBlockFromTree, hx, deleteBlockFromTree_noop i l2 h2]
  | cons a l1 ih =>
    simp only [treeIds, List.mem_append] at h1
    push_neg at h1
    have hid : a.id ≠ i := fun e => h1.1 (e ▸ blockId_mem_blockTreeIds a)
    simp [deleteBlockFromTree, hid, deleteSurvivor_noop i a h1.1, ih h1.2]

/-- `deleteInColumns` distributes over appended column lists. -/
theorem deleteInColumns_append (i : Id) (l1 l2 : List Block) :
    deleteInColumns i (l1 ++ l2) = deleteInColumns i l1 ++ deleteInColumns i l2 := by
  induction l1 with
  | nil => simp [deleteInColumns]
  | cons c cs ih => simp [deleteInColumns, ih]

/-- Deleting an id present at exactly one spot of some column's children
removes that one child and leaves every other node untouched. -/
theorem deleteBlockFromTree_at_nested (l1 l2 cs1 cs2 c1 c2 : List Block)
    (k cid : Id) (kst cst : BlockStyles) (g w : String) (sm mr : Bool) (b : Block)
    (h1 : b.id ∉ treeIds l1) (h2 : b.id ∉ treeIds l2) (hk : b.id ≠ k)
    (h3 : b.id ∉ colsTreeIds cs1) (h4 : b.id ∉ colsTreeIds cs2) (_hc : b.id ≠ cid)
    (h5 : b.id ∉ treeIds c1) (h6 : b.id ∉ treeIds c2) :
    deleteBlockFromTree b.id
      (l1 ++ .columnsB k kst g sm mr (cs1 ++ .columnB cid cst w (c1 ++ b :: c2) :: cs2) :: l2)
      = l1 ++ .columnsB k kst g sm mr (cs1 ++ .columnB cid cst w (c1 ++ c2) :: cs2) :: l2 := by
  have hx : (Block.columnsB k kst g sm mr
      (cs1 ++ .columnB cid cst w (c1 ++ b :: c2) :: cs2)).id ≠ b.id := by
    simp [Block.id]; exact fun e => hk e.symm
  rw [deleteBlockFromTree_middle l1 l2 _ b.id h1 h2 hx]
  congr 2
  rw [deleteSurvivor, deleteInColumns_append]
  rw [deleteInColumns_noop b.id cs1 h3]
  congr 1
  rw [deleteInColumns]
  rw [deleteInColumns_noop b.id cs2 h4]
  congr 1
  rw [deleteColumnEntry]
  rw [deleteBlockFromTree_at_top c1 c2 b h5 h6]

/-- A non-matching column entry is unchanged by `insertColEntry`. -/
theorem insertColEntry_noop_of_ne (nb : Block) (idx : Nat) (pid : Id) (c : Block)
    (h : c.id ≠ pid) : insertColEntry nb idx pid c = c := by
  simp [insertColEntry, h]

/-- A column list free of the parent id is unchanged by the inner insert
map. -/
theorem insertCols_noop (nb : Block) (idx : Nat) (pid : Id) :
    ∀ cols : List Block, pid ∉ colsTreeIds cols →
      cols.map (insertColEntry nb idx pid) = cols := by
  intro cols h
  induction cols with
  | nil => rfl
  | cons c cs ih =>
    simp only [colsTreeIds, List.mem_append] at h
    push_neg at h
    have hid : c.id ≠ pid := fun e => h.1 (e ▸ blockId_mem_blockTreeIds c)
    simp [insertColEntry_noop_of_ne nb idx pid c hid, ih h.2]

/-- A block free of the parent id is unchanged by the outer insert map. -/
theorem insertIntoBlock_noop (nb : Block) (idx : Nat) (pid : Id) :
    ∀ b : Block, pid ∉ blockTreeIds b → insertIntoBlock nb idx pid b = b
  | .leaf _ _ _, _ => rfl
  | .columnB _ _ _ _, _ => rfl
  | .columnsB j st g sm mr cols, h => by
    simp only [blockTreeIds, List.mem_cons] at h
    push_neg at h
    simp [insertIntoBlock, insertCols_noop nb idx pid cols h.2]

/-- A forest free of the parent id is unchanged by the insert map. -/
theorem insertMap_noop (nb : Block) (idx : Nat) (pid : Id) :
    ∀ bs : List Block, pid ∉ treeIds bs →
      bs.map (insertIntoBlock nb idx pid) = bs := by
  intro bs h
  induction bs with
  | nil => rfl
  | cons b bs ih =>
    simp only [treeIds, List.mem_append] at h
    push_neg at h
    simp [insertIntoBlock_noop nb idx pid b h.1, ih h.2]

/-- A column entry that is not an insertable column with the parent id is
unchanged by `insertColEntry`. -/
theorem insertColEntry_nonInsertable (nb : Block) (idx : Nat) (pid : Id) :
    ∀ c : Block,
      (match c with
       | Block.columnB j _ _ _ => decide (j = pid)
       | _ => false) = false →
      insertColEntry nb idx pid c = c
  | .leaf j st d, _ => by
    by_cases hcc : (Block.leaf j st d).id = pid <;> simp [insertColEntry, hcc]
  | .columnsB j st g sm mr cols, _ => by
    by_cases hcc : (Block.columnsB j st g sm mr cols).id = pid <;>
      simp [insertColEntry, hcc]
  | .columnB j st w ch, hj => by
    simp only [decide_eq_false_iff_not] at hj
    exact insertColEntry_noop_of_ne nb idx pid _ (by simpa [Block.id] using hj)

/-- A block holding no insertable column with the parent id is unchanged by
`insertIntoBlock`. -/
theorem insertIntoBlock_nonInsertable (nb : Block) (idx : Nat) (pid : Id) :
    ∀ b : Block,
      (match b with
       | Block.columnsB _ _ _ _ _ cols =>
         cols.any fun c =>
           match c with
           | Block.columnB j _ _ _ => decide (j = pid)
           | _ => false
       | _ => false) = false →
      insertIntoBlock nb idx pid b = b
  | .leaf _ _ _, _ => rfl
  | .columnB _ _ _ _, _ => rfl
  | .columnsB j st g sm mr cols, hcols => by
    rw [insertIntoBlock]
    congr 1
    induction cols with
    | nil => rfl
    | cons c cs ihc =>
      simp only [List.any_cons, Bool.or_eq_false_iff] at hcols
      rw [List.map_cons, insertColEntry_nonInsertable nb idx pid c hcols.1,
        ihc hcols.2]

/-- Inserting under a parent column id that names no insertable column of
the forest leaves the forest unchanged (the silent drop of a missing
parent). -/
theorem insertBlockInTree_parent_missing (bs : List Block) (nb : Block) (idx : Nat)
    (pid : Id) (h : hasInsertableColumn pid bs = false) :
    insertBlockInTree bs nb idx (some pid) = bs := by
  rw [insertBlockInTree]
  induction bs with
  | nil => rfl
  | cons b bs ih =>
    simp only [hasInsertableColumn, List.any_cons, Bool.or_eq_false_iff] at h ih
    rw [List.map_cons, insertIntoBlock_nonInsertable nb idx pid b h.1, ih h.2]

/-- Inserting under a parent column id whose column sits at a known spot
splices exactly into that column's children. -/
theorem insertBlockInTree_at_column (m1 m2 d1 d2 : List Block)
    (k cid : Id) (kst cst : BlockStyles) (g w : String) (sm mr : Bool)
    (ch : List Block) (nb : Block) (idx : Nat)
    (h1 : cid ∉ treeIds m1) (h2 : cid ∉ treeIds m2)
    (h3 : cid ∉ colsTreeIds d1) (h4 : cid ∉ colsTreeIds d2) :
    insertBlockInTree
      (m1 ++ .columnsB k kst g sm mr (d1 ++ .columnB cid cst w ch :: d2) :: m2)
      nb idx (some cid)
      = m1 ++ .columnsB k kst g sm mr
          (d1 ++ .columnB cid cst w (spliceInsert ch idx nb) :: d2) :: m2 := by
  rw [insertBlockInTree, List.map_append, List.map_cons]
  rw [insertMap_noop nb idx cid m1 h1, insertMap_noop nb idx cid m2 h2]
  congr 2
  rw [insertIntoBlock]
  congr 1
  rw [List.map_append, List.map_cons]
  rw [insertCols_noop nb idx cid d1 h3, insertCols_noop nb idx cid d2 h4]
  congr 2
  simp [insertColEntry, Block.id]

/-- Splicing at the junction of an append inserts exactly there. -/
theorem spliceInsert_at_junction (l1 l2 : List α) (a : α) :
    spliceInsert (l1 ++ l2) l1.length a = l1 ++ a :: l2 := by
  simp [spliceInsert, List.take_left, List.drop_left]

/-- Splicing right after a named element keeps it adjacent. -/
theorem spliceInsert_after (l1 l2 : List α) (b a : α) :
    spliceInsert (l1 ++ b :: l2) (l1.length + 1) a = l1 ++ b :: a :: l2 := by
  have ht : (l1 ++ b :: l2).take (l1.length + 1) = l1 ++ [b] := by
    rw [show l1.length + 1 = (l1 ++ [b]).length by simp]
    rw [show l1 ++ b :: l2 = (l1 ++ [b]) ++ l2 by simp]
    exact List.take_left _ _
  have hd : (l1 ++ b :: l2).drop (l1.length + 1) = l2 := by
    rw [show l1.length + 1 = (l1 ++ [b]).length by simp]
    rw [show l1 ++ b :: l2 = (l1 ++ [b]) ++ l2 by simp]
    exact List.drop_left _ _
  simp [spliceInsert, ht, hd]

/-- `findIdx?` of an id predicate on a list whose early ids differ finds the
junction index. -/
theorem findIdx_at (l1 l2 : List Block) (b : Block)
    (h : ∀ a ∈ l1, a.id ≠ b.id) :
    (l1 ++ b :: l2).findIdx? (fun a => a.id = b.id) = some l1.length := by
  induction l1 with
  | nil => simp [List.findIdx?_cons]
  | cons a l1 ih =>
    have ha : a.id ≠ b.id := h a (by simp)
    simp only [List.cons_append, List.findIdx?_cons, decide_eq_true_eq]
    simp [ha, ih (fun x hx => h x (by simp [hx]))]

/-- `findIdx?` of an id predicate misses when every top-level id differs. -/
theorem findIdx_none (l : List Block) (i : Id)
    (h : ∀ a ∈ l, a.id ≠ i) :
    l.findIdx? (fun a => a.id = i) = none := by
  induction l with
  | nil => rfl
  | cons a l ih =>
    have ha : a.id ≠ i := h a (by simp)
    simp only [List.findIdx?_cons, decide_eq_true_eq]
    simp [ha, ih (fun x hx => h x (by simp [hx]))]

/-! ## Lemmas: the history stacks under mutations, undo and redo -/

/-- `undo` on an empty past stack is the identity. -/
theorem undo_past_nil (s : EditorState) (h : s.history.past = []) : undo s = s := by
  rw [undo]
  split
  · rfl
  · next p ps heq => rw [h] at heq; cases heq

/-- `redo` on an empty future stack is the identity. -/
theorem redo_future_nil (s : EditorState) (h : s.history.future = []) : redo s = s := by
  rw [redo]
  split
  · rfl
  · next p ps heq => rw [h] at heq; cases heq

/-- `undo` on a non-empty past pops its head to the live tree and pushes the
live tree onto the future. -/
theorem undo_past_cons (s : EditorState) (p : List Block) (ps : List (List Block))
    (h : s.history.past = p :: ps) :
    undo s = { s with
      blocks := p
      history := { past := ps, future := s.blocks :: s.history.future }
      isDirty := true } := by
  rw [undo]
  split
  · next heq => rw [h] at heq; cases heq
  · next q qs heq =>
    rw [h] at heq
    cases heq
    rfl

/-- `redo` on a non-empty future pops its head to the live tree and pushes
the live tree onto the past. -/
theorem redo_future_cons (s : EditorState) (p : List Block) (ps : List (List Block))
    (h : s.history.future = p :: ps) :
    redo s = { s with
      blocks := p
      history := { past := s.blocks :: s.history.past, future := ps }
      isDirty := true } := by
  rw [redo]
  split
  · next heq => rw [h] at heq; cases heq
  · next q qs heq =>
    rw [h] at heq
    cases heq
    rfl

/-- Iterated `undo` splits over addition, inner calls first. -/
theorem undoN_add (a b : Nat) (s : EditorState) :
    undoN (a + b) s = undoN a (undoN b s) := by
  induction b generalizing s with
  | zero => rfl
  | succ b ih => rw [Nat.add_succ, undoN, undoN, ih]

/-- Iterated `redo` splits over addition, inner calls first. -/
theorem redoN_add (a b : Nat) (s : EditorState) :
    redoN (a + b) s = redoN a (redoN b s) := by
  induction b generalizing s with
  | zero => rfl
  | succ b ih => rw [Nat.add_succ, redoN, redoN, ih]

/-- Iterated `undo` on an empty past stack is the identity. -/
theorem undoN_past_nil (n : Nat) (s : EditorState) (h : s.history.past = []) :
    undoN n s = s := by
  induction n with
  | zero => rfl
  | succ n ih => rw [undoN, undo_past_nil s h, ih]

/-- Iterated `redo` on an empty future stack is the identity. -/
theorem redoN_future_nil (n : Nat) (s : EditorState) (h : s.history.future = []) :
    redoN n s = s := by
  induction n with
  | zero => rfl
  | succ n ih => rw [redoN, redo_future_nil s h, ih]

/-- Undoing exactly as many times as there are past snapshots drains the
past stack: the live tree becomes the oldest snapshot, and the future stack
receives, newest first, everything that was newer. -/
theorem undoN_drain (k : Nat) :
    ∀ s : EditorState, s.history.past.length = k →
      (undoN k s).blocks = s.history.past.getLastD s.blocks ∧
      (undoN k s).history.past = [] ∧
      (undoN k s).history.future =
        (s.blocks :: s.history.past).dropLast.reverse ++ s.history.future := by
  induction k with
  | zero =>
    intro s h
    have hnil : s.history.past = [] := List.length_eq_zero.mp h
    refine ⟨?_, ?_, ?_⟩ <;> simp [undoN, hnil]
  | succ k ih =>
    intro s h
    match hp : s.history.past with
    | [] => rw [hp] at h; cases h
    | p :: ps =>
      rw [hp] at h
      have hlen : ps.length = k := by simpa using h
      have hstep := undo_past_cons s p ps hp
      have h' := ih (undo s) (by rw [hstep]; simpa using hlen)
      refine ⟨?_, ?_, ?_⟩
      · rw [undoN, h'.1, hstep]
        cases ps <;> simp [List.getLastD]
      · rw [undoN, h'.2.1]
      · rw [undoN, h'.2.2, hstep]
        cases ps <;> simp

/-- Redoing exactly as many times as there are future snapshots drains the
future stack symmetrically. -/
theorem redoN_drain (k : Nat) :
    ∀ s : EditorState, s.history.future.length = k →
      (redoN k s).blocks = s.history.future.getLastD s.blocks ∧
      (redoN k s).history.future = [] ∧
      (redoN k s).history.past =
        (s.blocks :: s.history.future).dropLast.reverse ++ s.history.past := by
  induction k with
  | zero =>
    intro s h
    have hnil : s.history.future = [] := List.length_eq_zero.mp h
    refine ⟨?_, ?_, ?_⟩ <;> simp [redoN, hnil]
  | succ k ih =>
    intro s h
    match hp : s.history.future with
    | [] => rw [hp] at h; cases h
    | p :: ps =>
      rw [hp] at h
      have hlen : ps.length = k := by simpa using h
      have hstep := redo_future_cons s p ps hp
      have h' := ih (redo s) (by rw [hstep]; simpa using hlen)
      refine ⟨?_, ?_, ?_⟩
      · rw [redoN, h'.1, hstep]
        cases ps <;> simp [List.getLastD]
      · rw [redoN, h'.2.1]
      · rw [redoN, h'.2.2, hstep]
        cases ps <;> simp

/-- Every structural mutation either leaves the state unchanged (the
missing-id early returns of `moveBlock` and `duplicateBlock`) or pushes the
pre-mutation tree onto the history. -/
theorem applyOp_push_or_id (s : EditorState) (op : Op) :
    applyOp s op = s ∨ (applyOp s op).history = pushToHistory s.history s.blocks := by
  match op with
  | .setBlocks blocks => exact Or.inr rfl
  | .addBlock b idx pid => exact Or.inr rfl
  | .updateBlock i u => exact Or.inr rfl
  | .deleteBlock i => exact Or.inr rfl
  | .moveBlock i toIndex pid =>
    rw [applyOp, moveBlock]
    match findBlockById i s.blocks with
    | none => exact Or.inl rfl
    | some b => exact Or.inr rfl
  | .duplicateBlock i seed =>
    rw [applyOp, duplicateBlock]
    match findBlockById i s.blocks with
    | none => exact Or.inl rfl
    | some b => exact Or.inr rfl

/-- A mutation that always pushes produces exactly the pushed history. -/
theorem applyOp_alwaysPushes (s : EditorState) (op : Op)
    (h : op.alwaysPushes = true) :
    (applyOp s op).history = pushToHistory s.history s.blocks := by
  match op with
  | .setBlocks blocks => rfl
  | .addBlock b idx pid => rfl
  | .updateBlock i u => rfl
  | .deleteBlock i => rfl
  | .moveBlock i toIndex pid => cases h
  | .duplicateBlock i seed => cases h

/-- One mutation preserves the history invariant, raising the snapshot
budget by one while the budget stays within the bound. -/
theorem historyInv_step (b0 : List Block) (m : Nat) (s : EditorState) (op : Op)
    (hinv : HistoryInv b0 m s) (hm : m < MAX_HISTORY_LENGTH) :
    HistoryInv b0 (m + 1) (applyOp s op) := by
  obtain ⟨hfut, hlen, hemp, hlast⟩ := hinv
  rcases applyOp_push_or_id s op with heq | hpush
  · rw [heq]
    exact ⟨hfut, Nat.le_succ_of_le hlen, hemp, hlast⟩
  · have htake : (s.blocks :: s.history.past).take MAX_HISTORY_LENGTH
        = s.blocks :: s.history.past := by
      apply List.take_of_length_le
      simpa using Nat.succ_le_of_lt (Nat.lt_of_le_of_lt hlen hm)
    constructor
    · rw [hpush, pushToHistory]
    constructor
    · rw [hpush, pushToHistory]
      simpa [htake] using Nat.succ_le_succ hlen
    constructor
    · intro hnil
      rw [hpush] at hnil
      simp only [pushToHistory, htake] at hnil
      cases hnil
    · intro x hx
      rw [hpush] at hx
      simp only [pushToHistory, htake] at hx
      match hp : s.history.past with
      | [] =>
        rw [hp] at hx
        simp at hx
        exact hx.symm.trans (hemp hp)
      | p :: ps =>
        rw [hp] at hx
        rw [List.getLast?_cons_cons] at hx
        apply hlast
        rw [hp]
        exact hx

/-- A mutation sequence of total length within the bound preserves the
history invariant. -/
theorem historyInv_ops (ops : List Op) :
    ∀ (b0 : List Block) (m : Nat) (s : EditorState),
      HistoryInv b0 m s → m + ops.length ≤ MAX_HISTORY_LENGTH →
      HistoryInv b0 (m + ops.length) (applyOps s ops) := by
  induction ops with
  | nil => intro b0 m s hinv _; simpa using hinv
  | cons op ops ih =>
    intro b0 m s hinv hle
    have hm : m < MAX_HISTORY_LENGTH := by
      simp only [List.length_cons] at hle
      omega
    have h1 := historyInv_step b0 m s op hinv hm
    have := ih b0 (m + 1) (applyOp s op) h1 (by simp only [List.length_cons] at hle; omega)
    simpa [applyOps, Nat.add_comm, Nat.add_assoc, Nat.add_left_comm] using this

/-- The past stack never grows beyond the bound under mutations. -/
theorem pastLen_le (ops : List Op) :
    ∀ s : EditorState, s.history.past.length ≤ MAX_HISTORY_LENGTH →
      (applyOps s ops).history.past.length ≤ MAX_HISTORY_LENGTH := by
  induction ops with
  | nil => intro s h; simpa [applyOps] using h
  | cons op ops ih =>
    intro s h
    rw [applyOps]
    apply ih
    rcases applyOp_push_or_id s op with heq | hpush
    · rw [heq]; exact h
    · rw [hpush, pushToHistory]
      exact List.length_take_le MAX_HISTORY_LENGTH _

/-- Whatever `undo` reaches is the live tree or a retained past snapshot:
evicted snapshots are unreachable. -/
theorem undoN_reach (n : Nat) :
    ∀ s : EditorState,
      (undoN n s).blocks = s.blocks ∨ (undoN n s).blocks ∈ s.history.past := by
  induction n with
  | zero => intro s; exact Or.inl rfl
  | succ n ih =>
    intro s
    rw [undoN]
    match hp : s.history.past with
    | [] =>
      rw [undo_past_nil s hp]
      rcases ih s with h | h
      · exact Or.inl h
      · rw [hp] at h; cases h
    | p :: ps =>
      rw [undo_past_cons s p ps hp]
      rcases ih { s with
          blocks := p
          history := { past := ps, future := s.blocks :: s.history.future }
          isDirty := true } with h | h
      · exact Or.inr (by rw [h]; simp)
      · exact Or.inr (List.mem_cons_of_mem p (by simpa using h))

/-- `preStatesRev` records one snapshot per mutation. -/
theorem preStatesRev_length (ops : List Op) :
    ∀ s : EditorState, (preStatesRev s ops).length = ops.length := by
  induction ops with
  | nil => intro s; rfl
  | cons op ops ih => intro s; simp [preStatesRev, ih]

/-- Taking `n` of an append whose tail was already truncated at `n` is
taking `n` of the untruncated append. -/
theorem take_append_take (n : Nat) (a b : List α) :
    (a ++ b.take n).take n = (a ++ b).take n := by
  rw [List.take_append_eq_append_take, List.take_append_eq_append_take]
  congr 1
  rw [List.take_take]
  congr 1
  omega

/-- A member of a forest contributes its id to the forest's ids. -/
theorem mem_treeIds_of_mem (l : List Block) (a : Block) (h : a ∈ l) :
    a.id ∈ treeIds l := by
  induction l with
  | nil => cases h
  | cons x xs ih =>
    rcases List.mem_cons.mp h with rfl | hm
    · simp only [treeIds, List.mem_append]
      exact Or.inl (blockId_mem_blockTreeIds a)
    · simp only [treeIds, List.mem_append]
      exact Or.inr (ih hm)

/-- The last element of a reversed list is the first of the original. -/
theorem getLastD_reverse (l : List α) (d : α) :
    l.reverse.getLastD d = l.headD d := by
  cases l with
  | nil => rfl
  | cons x xs => simp [List.reverse_cons, List.getLastD_concat]

/-- Under mutations that all push, the past stack is exactly the newest
`MAX_HISTORY_LENGTH` of the pushed snapshots stacked on the older past:
eviction drops the oldest first. -/
theorem pushes_past (ops : List Op) :
    ∀ s : EditorState, (∀ op ∈ ops, op.alwaysPushes = true) →
      s.history.past.length ≤ MAX_HISTORY_LENGTH →
      (applyOps s ops).history.past
        = (preStatesRev s ops ++ s.history.past).take MAX_HISTORY_LENGTH := by
  induction ops with
  | nil =>
    intro s _ hlen
    simp [applyOps, preStatesRev, List.take_of_length_le hlen]
  | cons op ops ih =>
    intro s hall hlen
    have hpush := applyOp_alwaysPushes s op (hall op (by simp))
    rw [applyOps]
    rw [ih (applyOp s op) (fun x hx => hall x (by simp [hx]))
      (by rw [hpush, pushToHistory]; exact List.length_take_le MAX_HISTORY_LENGTH _)]
    rw [hpush, pushToHistory]
    simp only [preStatesRev]
    rw [take_append_take, List.append_assoc]
    rfl

/-! ## Lemmas: the deep clone of `duplicateBlock` -/

/-- The clone always carries the seed as its fresh id. -/
theorem cloneBlock_id : ∀ (b : Block) (n : Nat), (cloneBlock b n).1.id = n
  | .leaf _ _ _, _ => rfl
  | .columnsB _ _ _ _ _ _, _ => rfl
  | .columnB _ _ _ _, _ => rfl

mutual

/-- Cloning erases to the same id-stripped block: the clone is structurally
identical to the original apart from ids. -/
theorem cloneBlock_strip : ∀ (b : Block) (n : Nat),
    stripIdsB (cloneBlock b n).1 = stripIdsB b
  | .leaf _ st d => fun n => rfl
  | .columnB _ st w ch => fun n => rfl
  | .columnsB _ st g sm mr cols => fun n => by
    simp [cloneBlock, stripIdsB, cloneColumns_strip cols (n + 1)]

/-- Column-list version of `cloneBlock_strip`. -/
theorem cloneColumns_strip : ∀ (cs : List Block) (n : Nat),
    stripIdsL (cloneColumns cs n).1 = stripIdsL cs
  | [] => fun n => rfl
  | c :: cs => fun n => by
    simp [cloneColumns, stripIdsL, cloneColumn_strip c n,
      cloneColumns_strip cs (cloneColumn c n).2]

/-- One-column version of `cloneBlock_strip`. -/
theorem cloneColumn_strip : ∀ (c : Block) (n : Nat),
    stripIdsB (cloneColumn c n).1 = stripIdsB c
  | .columnB _ st w ch => fun n => by
    simp [cloneColumn, stripIdsB, cloneChildren_strip ch (n + 1)]
  | .leaf _ st d => fun n => rfl
  | .columnsB _ st g sm mr cols => fun n => rfl

/-- Children version of `cloneBlock_strip`. -/
theorem cloneChildren_strip : ∀ (bs : List Block) (n : Nat),
    stripIdsL (cloneChildren bs n).1 = stripIdsL bs
  | [] => fun n => rfl
  | b :: bs => fun n => by
    simp [cloneChildren, stripIdsL, cloneBlock_strip b n,
      cloneChildren_strip bs (cloneBlock b n).2]

end

/-- Cloning a well-formed column's children never decreases the counter. -/
theorem cloneChildren_counter_wf (bs : List Block) :
    ∀ n : Nat, wfChildren bs = true → n ≤ (cloneChildren bs n).2 := by
  induction bs with
  | nil => intro n _; exact Nat.le_refl n
  | cons b bs ih =>
    intro n hwf
    match b, hwf with
    | .leaf j st d, hwf =>
      have h2 := ih (n + 1) (by simpa [wfChildren] using hwf)
      calc n ≤ n + 1 := Nat.le_succ n
        _ ≤ _ := by simpa [cloneChildren, cloneBlock] using h2

/-- Every id of the clone of a well-formed column's children is at least the
seed. -/
theorem cloneChildren_fresh (bs : List Block) :
    ∀ n : Nat, wfChildren bs = true →
      ∀ j ∈ treeIds (cloneChildren bs n).1, n ≤ j := by
  induction bs with
  | nil => intro n _ j hj; cases hj
  | cons b bs ih =>
    intro n hwf j hj
    match b, hwf with
    | .leaf jid st d, hwf =>
      simp only [cloneChildren, cloneBlock, treeIds, blockTreeIds,
        List.mem_append, List.mem_singleton] at hj
      rcases hj with rfl | hj
      · exact Nat.le_refl j
      · have := ih (n + 1) (by simpa [wfChildren] using hwf) j (by
          simpa [cloneChildren, cloneBlock] using hj)
        omega

/-- Cloning well-formed columns never decreases the counter. -/
theorem cloneColumns_counter_wf (cs : List Block) :
    ∀ n : Nat, wfCols cs = true → n ≤ (cloneColumns cs n).2 := by
  induction cs with
  | nil => intro n _; exact Nat.le_refl n
  | cons c cs ih =>
    intro n hwf
    match c, hwf with
    | .columnB j st w ch, hwf =>
      simp only [wfCols, Bool.and_eq_true] at hwf
      have h1 : n + 1 ≤ (cloneChildren ch (n + 1)).2 :=
        cloneChildren_counter_wf ch (n + 1) hwf.1
      have h2 := ih (cloneColumn (.columnB j st w ch) n).2 hwf.2
      simp only [cloneColumns, cloneColumn] at h2 ⊢
      omega

/-- Every id of the clone of well-formed columns is at least the seed. -/
theorem cloneColumns_fresh (cs : List Block) :
    ∀ n : Nat, wfCols cs = true →
      ∀ j ∈ colsTreeIds (cloneColumns cs n).1, n ≤ j := by
  induction cs with
  | nil => intro n _ j hj; cases hj
  | cons c cs ih =>
    intro n hwf j hj
    match c, hwf with
    | .columnB cid st w ch, hwf =>
      simp only [wfCols, Bool.and_eq_true] at hwf
      simp only [cloneColumns, cloneColumn, colsTreeIds, blockTreeIds,
        List.mem_append, List.mem_cons] at hj
      rcases hj with (rfl | hch) | hrest
      · exact Nat.le_refl j
      · have := cloneChildren_fresh ch (n + 1) hwf.1 j hch
        omega
      · have hcnt : n + 1 ≤ (cloneChildren ch (n + 1)).2 :=
          cloneChildren_counter_wf ch (n + 1) hwf.1
        have := ih (cloneChildren ch (n + 1)).2 hwf.2 j (by
          simpa [cloneColumns, cloneColumn] using hrest)
        omega

/-- Every id of the clone of a well-formed block is at least the seed. -/
theorem cloneBlock_fresh (b : Block) (n : Nat) (hwf : wfBlock b = true) :
    ∀ j ∈ blockTreeIds (cloneBlock b n).1, n ≤ j := by
  match b, hwf with
  | .leaf jid st d, _ =>
    intro j hj
    have h2 : j = n := by simpa [cloneBlock, blockTreeIds] using hj
    exact Nat.le_of_eq h2.symm
  | .columnsB jid st g sm mr cols, hwf =>
    intro j hj
    simp only [cloneBlock, blockTreeIds, List.mem_cons] at hj
    rcases hj with rfl | hj
    · exact Nat.le_refl j
    · have := cloneColumns_fresh cols (n + 1) (by simpa [wfBlock] using hwf) j hj
      omega

/-! ## Lemmas: the variable-substitution scan -/

/-- What a successful `VARIABLE_PATTERN` match at the head of the input
guarantees: the consumed text reassembles exactly to the match source, at
least five characters were consumed, and the captured pieces have the
shapes the pattern promises. -/
theorem matchVar_spec (cs : List Char) (ws1 key ws2 : String) (rest : List Char)
    (h : matchVar cs = some ((ws1, key, ws2), rest)) :
    cs = (matchSource ws1 key ws2).toList ++ rest ∧
    rest.length + 5 ≤ cs.length ∧
    isIdent key = true ∧ allJsWs ws1 = true ∧ allJsWs ws2 = true := by
  simp only [matchVar] at h
  split at h
  case h_2 => exact absurd h (by simp)
  case h_1 rest0 =>
    split at h
    case h_2 => exact absurd h (by simp)
    case h_1 c r2 hr1 =>
      split at h
      case isFalse => exact absurd h (by simp)
      case isTrue hstart =>
        split at h
        case h_2 => exact absurd h (by simp)
        case h_1 rest4 hr4 =>
          injection h with h
          injection h with hkey hrest
          injection hkey with e1 hkey
          injection hkey with e2 e3
          subst e1
          subst e2
          subst e3
          subst hrest
          have hasL : ∀ l : List Char, (l.asString).data = l := fun _ => rfl
          have e0 : rest0 = rest0.takeWhile isJsWs ++ (c :: r2) := by
            conv_lhs => rw [← List.takeWhile_append_dropWhile isJsWs rest0]
            rw [hr1]
          have e2 : r2 = r2.takeWhile isIdentChar ++ r2.dropWhile isIdentChar :=
            (List.takeWhile_append_dropWhile isIdentChar r2).symm
          have e3 : r2.dropWhile isIdentChar =
              (r2.dropWhile isIdentChar).takeWhile isJsWs ++ ('}' :: '}' :: rest4) := by
            conv_lhs => rw [← List.takeWhile_append_dropWhile isJsWs (r2.dropWhile isIdentChar)]
            rw [hr4]
          refine ⟨?_, ?_, ?_, ?_, ?_⟩
          · show _ = (matchSource _ _ _).data ++ rest4
            simp only [matchSource, String.data_append, hasL]
            show '{' :: '{' :: rest0 =
              ('{' :: '{' :: []) ++ rest0.takeWhile isJsWs ++ (c :: r2.takeWhile isIdentChar) ++
                (r2.dropWhile isIdentChar).takeWhile isJsWs ++ ('}' :: '}' :: []) ++ rest4
            conv_lhs => rw [e0]
            conv_lhs => rw [e2]
            conv_lhs => rw [e3]
            simp
          · have l0 : rest0.length =
                (rest0.takeWhile isJsWs).length + 1 + r2.length := by
              conv_lhs => rw [e0]
              rw [List.length_append, List.length_cons]
              omega
            have l2 : r2.length = (r2.takeWhile isIdentChar).length +
                (r2.dropWhile isIdentChar).length := by
              conv_lhs => rw [e2]
              rw [List.length_append]
            have l3 : (r2.dropWhile isIdentChar).length =
                ((r2.dropWhile isIdentChar).takeWhile isJsWs).length + 2 + rest4.length := by
              conv_lhs => rw [e3]
              rw [List.length_append]
              simp only [List.length_cons]
              omega
            simp only [List.length_cons]
            omega
          · show isIdent (c :: r2.takeWhile isIdentChar).asString = true
            rw [isIdent]
            have : ((c :: r2.takeWhile isIdentChar).asString).toList =
                c :: r2.takeWhile isIdentChar := rfl
            rw [this]
            simp only [hstart, Bool.true_and]
            rw [List.all_eq_true]
            intro x hx
            exact List.mem_takeWhile_imp hx
          · show allJsWs (rest0.takeWhile isJsWs).asString = true
            rw [allJsWs]
            have : ((rest0.takeWhile isJsWs).asString).toList = rest0.takeWhile isJsWs := rfl
            rw [this, List.all_eq_true]
            intro x hx
            exact List.mem_takeWhile_imp hx
          · show allJsWs ((r2.dropWhile isIdentChar).takeWhile isJsWs).asString = true
            rw [allJsWs]
            have : (((r2.dropWhile isIdentChar).takeWhile isJsWs).asString).toList =
                (r2.dropWhile isIdentChar).takeWhile isJsWs := rfl
            rw [this, List.all_eq_true]
            intro x hx
            exact List.mem_takeWhile_imp hx

/-- The leftmost scan and its tokenisation agree: `replaceVarsGo` emits
exactly the rendering of the segments `tokenizeGo` records. -/
theorem replaceVarsGo_renders (m : VarMap) (fb : Bool) :
    ∀ (fuel : Nat) (cs : List Char), cs.length ≤ fuel →
      replaceVarsGo m fb fuel cs = (segsRender m fb (tokenizeGo fuel cs)).toList := by
  intro fuel
  induction fuel with
  | zero =>
    intro cs h
    have : cs = [] := List.length_eq_zero.mp (Nat.le_zero.mp h)
    subst this
    rfl
  | succ fuel ih =>
    intro cs h
    match cs with
    | [] => rfl
    | c :: cs' =>
      rw [replaceVarsGo, tokenizeGo]
      match hm : matchVar (c :: cs') with
      | some ((ws1, key, ws2), rest) =>
        have hspec := matchVar_spec (c :: cs') ws1 key ws2 rest hm
        have hlen : rest.length ≤ fuel := by
          have h5 := hspec.2.1
          simp only [List.length_cons] at h5 h
          omega
        dsimp only
        rw [ih rest hlen]
        show _ = (Seg.render m fb (.tok ws1 key ws2) ++
          segsRender m fb (tokenizeGo fuel rest)).data
        rw [String.data_append]
        congr 1
        rw [Seg.render]
        match varGet m key with
        | some v => rfl
        | none => match fb with | true => rfl | false => rfl
      | none =>
        have hlen : cs'.length ≤ fuel := by
          simp only [List.length_cons] at h
          omega
        dsimp only
        rw [ih cs' hlen]
        show c :: _ = (Seg.render m fb (.raw c) ++
          segsRender m fb (tokenizeGo fuel cs')).data
        rw [String.data_append]
        rfl

/-- The tokenisation covers the input exactly: concatenating every
segment's source text rebuilds the input string. -/
theorem tokenizeGo_source :
    ∀ (fuel : Nat) (cs : List Char), cs.length ≤ fuel →
      (segsSource (tokenizeGo fuel cs)).toList = cs := by
  intro fuel
  induction fuel with
  | zero =>
    intro cs h
    have : cs = [] := List.length_eq_zero.mp (Nat.le_zero.mp h)
    subst this
    rfl
  | succ fuel ih =>
    intro cs h
    match cs with
    | [] => rfl
    | c :: cs' =>
      rw [tokenizeGo]
      match hm : matchVar (c :: cs') with
      | some ((ws1, key, ws2), rest) =>
        have hspec := matchVar_spec (c :: cs') ws1 key ws2 rest hm
        have hlen : rest.length ≤ fuel := by
          have h5 := hspec.2.1
          simp only [List.length_cons] at h5 h
          omega
        dsimp only
        show ((Seg.tok ws1 key ws2).source ++ segsSource (tokenizeGo fuel rest)).data
          = c :: cs'
        rw [String.data_append]
        have hr := ih rest hlen
        rw [show (segsSource (tokenizeGo fuel rest)).data
          = (segsSource (tokenizeGo fuel rest)).toList from rfl, hr]
        rw [Seg.source]
        exact hspec.1.symm
      | none =>
        have hlen : cs'.length ≤ fuel := by
          simp only [List.length_cons] at h
          omega
        dsimp only
        show ((Seg.raw c).source ++ segsSource (tokenizeGo fuel cs')).data = c :: cs'
        rw [String.data_append]
        have hr := ih cs' hlen
        rw [show (segsSource (tokenizeGo fuel cs')).data
          = (segsSource (tokenizeGo fuel cs')).toList from rfl, hr]
        rfl

/-- Every token the scan records has the promised shape: an identifier key
between optional whitespace runs. -/
theorem tokenizeGo_tok_shape :
    ∀ (fuel : Nat) (cs : List Char) (ws1 key ws2 : String),
      Seg.tok ws1 key ws2 ∈ tokenizeGo fuel cs →
      isIdent key = true ∧ allJsWs ws1 = true ∧ allJsWs ws2 = true := by
  intro fuel
  induction fuel with
  | zero => intro cs ws1 key ws2 h; cases h
  | succ fuel ih =>
    intro cs ws1 key ws2 h
    match cs with
    | [] => cases h
    | c :: cs' =>
      rw [tokenizeGo] at h
      revert h
      match hm : matchVar (c :: cs') with
      | some ((w1, k, w2), rest) =>
        intro h
        dsimp only at h
        rcases List.mem_cons.mp h with heq | hmem
        · injection heq with e1 e2 e3
          subst e1; subst e2; subst e3
          have hspec := matchVar_spec (c :: cs') ws1 key ws2 rest hm
          exact ⟨hspec.2.2.1, hspec.2.2.2.1, hspec.2.2.2.2⟩
        · exact ih rest ws1 key ws2 hmem
      | none =>
        intro h
        dsimp only at h
        rcases List.mem_cons.mp h with heq | hmem
        · cases heq
        · exact ih cs' ws1 key ws2 hmem

/-! ## Lemmas: every rendered top-level block is one table row -/

/-- `wrapInRow` produces exactly the `rowShape` row template. -/
theorem wrapInRow_rowShape (content : String) (st : BlockStyles) :
    wrapInRow content st =
      rowShape (stylesToCss st) ("\n          " ++ content ++ "\n        ") := by
  rw [wrapInRow, rowShape]
  apply String.ext
  simp [String.data_append]

set_option maxRecDepth 8000 in
/-- The columns shell is also one `rowShape` row. -/
theorem renderColumnsShell_rowShape (st : BlockStyles) (columnsHtml : String) :
    renderColumnsShell st columnsHtml =
      rowShape (stylesToCss st)
        ("\n          <!--[if mso]>\n          <table role=\"presentation\" border=\"0\" cellpadding=\"0\" cellspacing=\"0\" width=\"100%\">\n          <tr>\n          <![endif]-->\n          <table border=\"0\" cellpadding=\"0\" cellspacing=\"0\" width=\"100%\" style=\"table-layout: fixed;\">\n            <tr>\n              " ++
          columnsHtml ++
          "\n            </tr>\n          </table>\n          <!--[if mso]>\n          </tr>\n          </table>\n          <![endif]-->\n        ") := by
  rw [renderColumnsShell, rowShape]
  apply String.ext
  simp [String.data_append]

/-- A spacer is also one `rowShape` row. -/
theorem renderSpacer_rowShape (height : String) :
    renderSpacer height =
      rowShape ("height: " ++ height ++ "; line-height: " ++ height ++ "; font-size: 1px;")
        "&nbsp;" := by
  rw [renderSpacer, rowShape]
  apply String.ext
  simp [String.data_append]

/-- Every block other than a bare `column` renders as a single
`<tr><td style="…">…</td></tr>` row. -/
theorem renderBlock_rowShape (vars : VarMap) (b : Block)
    (h : b.type ≠ BlockType.column) :
    ∃ css inner, renderBlock vars b = rowShape css inner := by
  match b with
  | .leaf i st (.text c) => exact ⟨_, _, wrapInRow_rowShape _ _⟩
  | .leaf i st (.heading c lv) => exact ⟨_, _, wrapInRow_rowShape _ _⟩
  | .leaf i st (.image src alt link width) =>
    show ∃ css inner, renderImage st src alt link width = rowShape css inner
    rw [renderImage]
    split <;> exact ⟨_, _, wrapInRow_rowShape _ _⟩
  | .leaf i st (.button t l bs) => exact ⟨_, _, wrapInRow_rowShape _ _⟩
  | .leaf i st (.divider ds) => exact ⟨_, _, wrapInRow_rowShape _ _⟩
  | .leaf i st (.spacer ht) => exact ⟨_, _, renderSpacer_rowShape ht⟩
  | .leaf i st (.social links isz ist sp al) => exact ⟨_, _, wrapInRow_rowShape _ _⟩
  | .leaf i st (.video u t p) =>
    show ∃ css inner, renderVideo st u t p = rowShape css inner
    rw [renderVideo]
    split <;> exact ⟨_, _, wrapInRow_rowShape _ _⟩
  | .leaf i st (.html c) => exact ⟨_, _, wrapInRow_rowShape _ _⟩
  | .leaf i st (.menu items sep layout) => exact ⟨_, _, wrapInRow_rowShape _ _⟩
  | .leaf i st (.footer c su sa ad) => exact ⟨_, _, wrapInRow_rowShape _ _⟩
  | .leaf i st (.header swv wvt) => exact ⟨_, _, wrapInRow_rowShape _ _⟩
  | .leaf i st (.logo src alt link width al) =>
    show ∃ css inner, renderLogo st src alt link width al = rowShape css inner
    rw [renderLogo]
    split <;> exact ⟨_, _, wrapInRow_rowShape _ _⟩
  | .leaf i st (.list items lt bs) => exact ⟨_, _, wrapInRow_rowShape _ _⟩
  | .columnsB i st p sm mw cols => exact ⟨_, _, renderColumnsShell_rowShape _ _⟩
  | .columnB i st w ch => exact absurd rfl h

/-! ## Characterisations of the two early-returning store mutations -/

/-- When the lookup succeeds, `moveBlock` is exactly the delete-then-insert
of the found block. -/
theorem moveBlock_eq (s : EditorState) (i : Id) (toIndex : Nat) (pid : Option Id)
    (b : Block) (hf : findBlockById i s.blocks = some b) :
    moveBlock s i toIndex pid =
      { s with
        blocks := insertBlockInTree (deleteBlockFromTree i s.blocks) b toIndex pid
        history := pushToHistory s.history s.blocks
        isDirty := true } := by
  rw [moveBlock, hf]

/-- When the lookup succeeds, `duplicateBlock` is exactly the splice of the
clone at `findIndex + 1` (index `0` when the block is not top-level). -/
theorem duplicateBlock_eq (s : EditorState) (i : Id) (seed : Nat) (b : Block)
    (hf : findBlockById i s.blocks = some b) :
    duplicateBlock s i seed =
      { s with
        blocks := spliceInsert s.blocks
          (match s.blocks.findIdx? (fun a => a.id = i) with
           | some bi => bi + 1
           | none => 0) (cloneBlock b seed).1
        selectedBlockId := some (cloneBlock b seed).1.id
        history := pushToHistory s.history s.blocks
        isDirty := true } := by
  rw [duplicateBlock, hf]

/-! ## The claims -/

/-- Claim C2 (amended): a mutation keyed by an id that occurs nowhere in the
tree never throws, and `moveBlock` and `duplicateBlock` indeed return the
state untouched; but `updateBlock` and `deleteBlock`, while leaving the tree
unchanged, still push a history snapshot, clear the redo stack and set the
dirty flag — for them only the tree, not the entire store state, is
unchanged. -/
theorem claim_C2 (s : EditorState) (i : Id) (u : BlockUpdates) (toIndex : Nat)
    (pid : Option Id) (seed : Nat) (h : i ∉ treeIds s.blocks) :
    moveBlock s i toIndex pid = s ∧
    duplicateBlock s i seed = s ∧
    (updateBlock s i u).blocks = s.blocks ∧
    (updateBlock s i u).history = pushToHistory s.history s.blocks ∧
    (updateBlock s i u).isDirty = true ∧
    (deleteBlock s i).blocks = s.blocks ∧
    (deleteBlock s i).history = pushToHistory s.history s.blocks ∧
    (deleteBlock s i).isDirty = true := by
  refine ⟨?_, ?_, ?_, rfl, rfl, ?_, rfl, rfl⟩
  · rw [moveBlock, findBlockById_none i s.blocks h]
  · rw [duplicateBlock, findBlockById_none i s.blocks h]
  · exact updateBlockInTree_noop i u s.blocks h
  · exact deleteBlockFromTree_noop i s.blocks h

/-- Witness for C2: a concrete absent id on the initial state. -/
theorem claim_C2_witness :
    (7 : Id) ∉ treeIds initialState.blocks ∧
    moveBlock initialState 7 0 none = initialState :=
  ⟨by decide, (claim_C2 initialState 7 {} 0 none 0 (by decide)).1⟩

/-- Counterexample to C2 as stated: on the initial state, `updateBlock` and
`deleteBlock` of an absent id change the store (the history gains a
snapshot and the dirty flag is set), so they are not silent no-ops on the
entire store state. -/
theorem claim_C2_cex :
    (99 : Id) ∉ treeIds initialState.blocks ∧
    updateBlock initialState 99 {} ≠ initialState ∧
    deleteBlock initialState 99 ≠ initialState := by
  decide

/-- Claim C10: `addBlock` under a parent column id that names no column of
the tree drops the block silently, yet still pushes a history snapshot of
the prior tree, clears the redo stack, sets the dirty flag, and selects the
id of a block that a lookup then fails to find anywhere in the tree. -/
theorem claim_C10 (s : EditorState) (b : Block) (idx : Option Nat) (pid : Id)
    (h : hasInsertableColumn pid s.blocks = false) :
    (addBlock s b idx (some pid)).blocks = s.blocks ∧
    (addBlock s b idx (some pid)).history = pushToHistory s.history s.blocks ∧
    (addBlock s b idx (some pid)).history.future = [] ∧
    (addBlock s b idx (some pid)).isDirty = true ∧
    (addBlock s b idx (some pid)).selectedBlockId = some b.id ∧
    (b.id ∉ treeIds s.blocks →
      findBlockById b.id (addBlock s b idx (some pid)).blocks = none) := by
  have hb : (addBlock s b idx (some pid)).blocks = s.blocks :=
    insertBlockInTree_parent_missing s.blocks b (idx.getD s.blocks.length) pid h
  refine ⟨hb, rfl, rfl, rfl, rfl, ?_⟩
  intro habs
  rw [hb]
  exact findBlockById_none b.id s.blocks habs

/-- Witness for C10: a concrete bogus parent column id on the initial
state. -/
theorem claim_C10_witness :
    hasInsertableColumn 42 initialState.blocks = false ∧
    (addBlock initialState (Block.leaf 8 [] (LeafData.text "z")) (some 0)
      (some 42)).blocks = initialState.blocks :=
  ⟨by decide,
    (claim_C10 initialState (Block.leaf 8 [] (LeafData.text "z")) (some 0) 42
      (by decide)).1⟩

/-- Claim C4 (amended): the refusal to nest a `columns` block inside a
column exists only in the drag layer and only for new-block payloads:
`handleColumnDrop` rejects a new `columns` block but forwards an
existing-block move into the column unchecked, and the store's insertion
path itself splices any block — `columns` included — straight into the
named column's children. -/
theorem claim_C4 :
    (∀ (dd : DragData) (t : DropTarget) (pid : Id),
      dd.kind = DragKind.newBlock → dd.blockType = some BlockType.columns →
      handleColumnDrop dd t pid = DropAction.noop) ∧
    (∀ (dd : DragData) (t : DropTarget) (pid : Id) (bid : Id),
      dd.kind = DragKind.existingBlock → dd.blockId = some bid →
      handleColumnDrop dd t pid =
        DropAction.move bid
          (t.index + (if t.position = DropPosition.after then 1 else 0))
          (some pid)) ∧
    (∀ (s : EditorState) (m1 m2 d1 d2 : List Block) (k cid : Id)
        (kst cst : BlockStyles) (g w : String) (sm mr : Bool) (ch : List Block)
        (nb : Block) (idx : Nat),
      s.blocks = m1 ++ Block.columnsB k kst g sm mr
        (d1 ++ Block.columnB cid cst w ch :: d2) :: m2 →
      cid ∉ treeIds m1 → cid ∉ treeIds m2 →
      cid ∉ colsTreeIds d1 → cid ∉ colsTreeIds d2 →
      (addBlock s nb (some idx) (some cid)).blocks
        = m1 ++ Block.columnsB k kst g sm mr
            (d1 ++ Block.columnB cid cst w (spliceInsert ch idx nb) :: d2) :: m2) := by
  refine ⟨?_, ?_, ?_⟩
  · rintro ⟨k, bt, bid, si⟩ t pid hk hbt
    dsimp only at hk hbt
    subst hk
    subst hbt
    simp [handleColumnDrop]
  · rintro ⟨k, bt, bi, si⟩ t pid bid hk hb
    dsimp only at hk hb
    subst hk
    subst hb
    simp [handleColumnDrop]
  · intro s m1 m2 d1 d2 k cid kst cst g w sm mr ch nb idx hs h1 h2 h3 h4
    show insertBlockInTree s.blocks nb idx (some cid) = _
    rw [hs]
    exact insertBlockInTree_at_column m1 m2 d1 d2 k cid kst cst g w sm mr ch nb idx
      h1 h2 h3 h4

/-- Counterexample to C4 as stated: adding a `columns` block into a column
through the store succeeds and produces a three-level tree — the store
performs no nesting check, so not every reachable tree has two levels. -/
theorem claim_C4_cex :
    (Block.columnsB 7 [] "0" true false []).type = BlockType.columns ∧
    (addBlock
        { initialState with
          blocks := [Block.columnsB 1 [] "16px" true false
            [Block.columnB 2 [] "50%" []]] }
        (Block.columnsB 7 [] "0" true false []) (some 0) (some 2)).blocks
      = [Block.columnsB 1 [] "16px" true false
          [Block.columnB 2 [] "50%" [Block.columnsB 7 [] "0" true false []]]] ∧
    wfBlock (Block.columnsB 1 [] "16px" true false
      [Block.columnB 2 [] "50%" [Block.columnsB 7 [] "0" true false []]]) = false := by
  decide

/-- Claim C5 (amended): `moveBlock` of a present block is delete-then-insert
of that very block, so the move is position-only whenever the destination
exists: a top-level move splices the unmodified block at the requested
top-level index of the tree it was removed from, and a move into a column
that exists after the removal splices it into exactly that column's
children; but a parent column id matching no column silently discards the
block — the tree then equals the tree with the block deleted. -/
theorem claim_C5 (s : EditorState) (toIndex : Nat) :
    (∀ (l1 l2 : List Block) (b : Block), s.blocks = l1 ++ b :: l2 →
      b.id ∉ treeIds l1 → b.id ∉ treeIds l2 →
      moveBlock s b.id toIndex none =
        { s with
          blocks := spliceInsert (l1 ++ l2) toIndex b
          history := pushToHistory s.history s.blocks
          isDirty := true }) ∧
    (∀ (l1 l2 cs1 cs2 c1 c2 : List Block) (k cid : Id) (kst cst : BlockStyles)
        (g w : String) (sm mr : Bool) (b : Block),
      s.blocks = l1 ++ Block.columnsB k kst g sm mr
        (cs1 ++ Block.columnB cid cst w (c1 ++ b :: c2) :: cs2) :: l2 →
      b.id ∉ treeIds l1 → b.id ∉ treeIds l2 → b.id ≠ k →
      b.id ∉ colsTreeIds cs1 → b.id ∉ colsTreeIds cs2 → b.id ≠ cid →
      b.id ∉ treeIds c1 → b.id ∉ treeIds c2 →
      (moveBlock s b.id toIndex none).blocks =
        spliceInsert (l1 ++ Block.columnsB k kst g sm mr
          (cs1 ++ Block.columnB cid cst w (c1 ++ c2) :: cs2) :: l2) toIndex b) ∧
    (∀ (b : Block), findBlockById b.id s.blocks = some b →
      ∀ (m1 m2 d1 d2 : List Block) (k cid : Id) (kst cst : BlockStyles)
        (g w : String) (sm mr : Bool) (ch : List Block),
      deleteBlockFromTree b.id s.blocks
        = m1 ++ Block.columnsB k kst g sm mr
            (d1 ++ Block.columnB cid cst w ch :: d2) :: m2 →
      cid ∉ treeIds m1 → cid ∉ treeIds m2 →
      cid ∉ colsTreeIds d1 → cid ∉ colsTreeIds d2 →
      (moveBlock s b.id toIndex (some cid)).blocks
        = m1 ++ Block.columnsB k kst g sm mr
            (d1 ++ Block.columnB cid cst w (spliceInsert ch toIndex b) :: d2) :: m2) ∧
    (∀ (b : Block) (cid : Id), findBlockById b.id s.blocks = some b →
      hasInsertableColumn cid (deleteBlockFromTree b.id s.blocks) = false →
      (moveBlock s b.id toIndex (some cid)).blocks
        = deleteBlockFromTree b.id s.blocks) := by
  refine ⟨?_, ?_, ?_, ?_⟩
  · intro l1 l2 b hs h1 h2
    have hf : findBlockById b.id s.blocks = some b := by
      rw [hs]; exact findBlockById_at_top l1 l2 b h1
    rw [moveBlock_eq s b.id toIndex none b hf, hs,
      deleteBlockFromTree_at_top l1 l2 b h1 h2]
    rfl
  · intro l1 l2 cs1 cs2 c1 c2 k cid kst cst g w sm mr b hs h1 h2 hk h3 h4 hc h5 h6
    have hf : findBlockById b.id s.blocks = some b := by
      rw [hs]
      exact findBlockById_at_nested l1 l2 cs1 cs2 c1 c2 k cid kst cst g w sm mr b
        h1 hk h3 hc h5
    rw [moveBlock_eq s b.id toIndex none b hf, hs,
      deleteBlockFromTree_at_nested l1 l2 cs1 cs2 c1 c2 k cid kst cst g w sm mr b
        h1 h2 hk h3 h4 hc h5 h6]
    rfl
  · intro b hf m1 m2 d1 d2 k cid kst cst g w sm mr ch hdel hm1 hm2 hd1 hd2
    rw [moveBlock_eq s b.id toIndex (some cid) b hf]
    show insertBlockInTree (deleteBlockFromTree b.id s.blocks) b toIndex (some cid) = _
    rw [hdel]
    exact insertBlockInTree_at_column m1 m2 d1 d2 k cid kst cst g w sm mr ch b toIndex
      hm1 hm2 hd1 hd2
  · intro b cid hf hmiss
    rw [moveBlock_eq s b.id toIndex (some cid) b hf]
    exact insertBlockInTree_parent_missing _ b toIndex cid hmiss

/-- Counterexample to C5 as stated: moving an existing block under a parent
column id that matches no column deletes the block outright — the resulting
tree does not contain the same blocks. -/
theorem claim_C5_cex :
    (5 : Id) ∈ treeIds [Block.leaf 5 [] (LeafData.text "x")] ∧
    (moveBlock { initialState with blocks := [Block.leaf 5 [] (LeafData.text "x")] }
      5 0 (some 99)).blocks = [] := by
  decide

/-- Claim C6: `replaceVariables` with the default fallback renders exactly
the leftmost-scan tokenisation of its input: the tokenisation covers the
input exactly, every recorded token is optional whitespace around a
`[a-zA-Z_][a-zA-Z0-9_]*` identifier inside double braces, a token whose key
is bound renders as the bound (possibly empty) value, a token whose key is
unbound renders as its original literal text, and both the tight and the
spaced forms match. -/
theorem claim_C6 (text : String) (m : VarMap) :
    replaceVariables text m = segsRender m true (tokenize text) ∧
    segsSource (tokenize text) = text ∧
    (∀ ws1 key ws2, Seg.tok ws1 key ws2 ∈ tokenize text →
      isIdent key = true ∧ allJsWs ws1 = true ∧ allJsWs ws2 = true) ∧
    (∀ ws1 key ws2 v, varGet m key = some v →
      Seg.render m true (Seg.tok ws1 key ws2) = v) ∧
    (∀ ws1 key ws2, varGet m key = none →
      Seg.render m true (Seg.tok ws1 key ws2) = matchSource ws1 key ws2) ∧
    replaceVariables "\x7b\x7bname\x7d\x7d" [("name", "Ada")] = "Ada" ∧
    replaceVariables "\x7b\x7b name \x7d\x7d" [("name", "Ada")] = "Ada" ∧
    replaceVariables "\x7b\x7b unknown \x7d\x7d" [] = "\x7b\x7b unknown \x7d\x7d" := by
  refine ⟨?_, ?_, ?_, ?_, ?_, by decide, by decide, by decide⟩
  · rw [replaceVariables, tokenize,
      replaceVarsGo_renders m true text.toList.length text.toList (Nat.le_refl _)]
    rfl
  · apply String.ext
    exact tokenizeGo_source text.toList.length text.toList (Nat.le_refl _)
  · intro ws1 key ws2 hmem
    exact tokenizeGo_tok_shape text.toList.length text.toList ws1 key ws2 hmem
  · intro ws1 key ws2 v hv
    rw [Seg.render, hv]
  · intro ws1 key ws2 hv
    rw [Seg.render, hv]
    rfl

set_option maxRecDepth 20000 in
/-- Claim C9: the wrapper-free render is exactly the per-block rows joined
by newlines, every top-level block other than a bare column renders as one
`<tr><td>` row, adding a text block and then a button block at index 0
yields the order button-then-text, and on that tree the render is the
`<a>`-rendered button row followed by the text row with the button's text
variable-substituted. -/
theorem claim_C9 (vars : VarMap) (es : EmailStyles) (blocks : List Block) :
    render vars es blocks false
      = String.intercalate "\n" (blocks.map (renderBlock vars)) ∧
    (∀ b ∈ blocks, Block.type b ≠ BlockType.column →
      ∃ css inner, renderBlock vars b = rowShape css inner) ∧
    (∀ (s : EditorState) (tb bb : Block), s.blocks = [] →
      (addBlock (addBlock s tb none none) bb (some 0) none).blocks = [bb, tb]) ∧
    render [("name", "Ada")] DEFAULT_EMAIL_STYLES
        [Block.leaf 2 [] (LeafData.button "Hi \x7b\x7bname\x7d\x7d" "https://x"
          ⟨"#007bff", "#ffffff", "4px", "24px", "12px", "16px", "bold", "0px",
            "#000000", false⟩),
         Block.leaf 1 [] (LeafData.text "hello")] false
      = renderBlock [("name", "Ada")]
          (Block.leaf 2 [] (LeafData.button "Hi \x7b\x7bname\x7d\x7d" "https://x"
            ⟨"#007bff", "#ffffff", "4px", "24px", "12px", "16px", "bold", "0px",
              "#000000", false⟩))
        ++ "\n"
        ++ renderBlock [("name", "Ada")] (Block.leaf 1 [] (LeafData.text "hello")) ∧
    renderBlock [("name", "Ada")]
        (Block.leaf 2 [] (LeafData.button "Hi \x7b\x7bname\x7d\x7d" "https://x"
          ⟨"#007bff", "#ffffff", "4px", "24px", "12px", "16px", "bold", "0px",
            "#000000", false⟩))
      = wrapInRow
          ("<a href=\"https://x\" style=\"display: inline-block; background-color: #007bff; color: #ffffff; font-size: 16px; font-weight: bold; padding: 12px 24px; border-radius: 4px; border: 0px solid #000000; text-decoration: none; text-align: center;\" target=\"_blank\">Hi Ada</a>")
          [] := by
  refine ⟨rfl, ?_, ?_, by decide, by decide⟩
  · intro b _ hty
    exact renderBlock_rowShape vars b hty
  · intro s tb bb h
    simp [addBlock, insertBlockInTree, spliceInsert, h]

/-- Claim C1: from a state with empty history, any mutation sequence of
length at most the bound undoes back to the exact original tree and redoes
back to the final tree; the past stack never exceeds the bound; under
mutations that always push, the past stack is exactly the newest bound-many
pre-mutation snapshots (the oldest are evicted first); and undo only ever
reaches the live tree or a retained snapshot, so evicted states are
unreachable. -/
theorem claim_C1 (s0 : EditorState) (ops : List Op)
    (h0 : s0.history = { past := [], future := [] }) :
    (ops.length ≤ MAX_HISTORY_LENGTH →
      (undoN ops.length (applyOps s0 ops)).blocks = s0.blocks ∧
      (redoN ops.length (undoN ops.length (applyOps s0 ops))).blocks
        = (applyOps s0 ops).blocks) ∧
    (applyOps s0 ops).history.past.length ≤ MAX_HISTORY_LENGTH ∧
    ((∀ op ∈ ops, op.alwaysPushes = true) →
      (applyOps s0 ops).history.past
        = (preStatesRev s0 ops).take MAX_HISTORY_LENGTH) ∧
    (∀ n : Nat, (undoN n (applyOps s0 ops)).blocks = (applyOps s0 ops).blocks ∨
      (undoN n (applyOps s0 ops)).blocks ∈ (applyOps s0 ops).history.past) := by
  have hpast0 : s0.history.past = [] := by rw [h0]
  have hfut0 : s0.history.future = [] := by rw [h0]
  refine ⟨?_, ?_, ?_, fun n => undoN_reach n (applyOps s0 ops)⟩
  · intro hlen
    have hinv0 : HistoryInv s0.blocks 0 s0 := by
      refine ⟨hfut0, by rw [hpast0]; exact Nat.le_refl 0, fun _ => rfl, ?_⟩
      intro x hx
      rw [hpast0] at hx
      simp at hx
    have hinv := historyInv_ops ops s0.blocks 0 s0 hinv0 (by simpa using hlen)
    rw [Nat.zero_add] at hinv
    obtain ⟨hfut, hlenk, hemp, hlast⟩ := hinv
    set sF := applyOps s0 ops with hsF
    set k := sF.history.past.length with hk
    have hsplit : ops.length = (ops.length - k) + k := by omega
    have hd := undoN_drain k sF hk.symm
    have hU : undoN ops.length sF = undoN k sF := by
      rw [hsplit, undoN_add]
      exact undoN_past_nil (ops.length - k) (undoN k sF) hd.2.1
    have hblocks : (undoN k sF).blocks = s0.blocks := by
      rw [hd.1]
      match hp : sF.history.past with
      | [] =>
        simp only [List.getLastD]
        exact hemp hp
      | p :: ps =>
        rw [hp] at hlast
        rw [List.getLastD_eq_getLast?]
        match hq : (p :: ps).getLast? with
        | none => simp at hq
        | some x =>
          have hx := hlast x (by rw [hq]; rfl)
          simp [hx]
    refine ⟨by rw [hU]; exact hblocks, ?_⟩
    have hfutU : (undoN k sF).history.future
        = (sF.blocks :: sF.history.past).dropLast.reverse := by
      rw [hd.2.2, hfut, List.append_nil]
    have hlenfU : (undoN k sF).history.future.length = k := by
      rw [hfutU, hk]
      simp
    have hr := redoN_drain k (undoN k sF) hlenfU
    have hR : redoN ops.length (undoN ops.length sF) = redoN k (undoN k sF) := by
      rw [hU, hsplit, redoN_add]
      exact redoN_future_nil (ops.length - k) (redoN k (undoN k sF)) hr.2.1
    rw [hR, hr.1, hfutU, getLastD_reverse]
    match hp : sF.history.past with
    | [] =>
      have hk0 : k = 0 := by rw [hk, hp]; rfl
      rw [hk0]
      simp [List.dropLast, undoN]
    | p :: ps =>
      simp
  · exact pastLen_le ops s0 (by rw [hpast0]; exact Nat.zero_le _)
  · intro hall
    have hpp := pushes_past ops s0 hall (by rw [hpast0]; exact Nat.zero_le _)
    rw [hpast0, List.append_nil] at hpp
    exact hpp

/-- Witness for C1: one concrete mutation on the initial state undoes to the
empty initial tree. -/
theorem claim_C1_witness :
    (undoN 1 (applyOps initialState
      [Op.setBlocks [Block.leaf 1 [] (LeafData.text "x")]])).blocks
      = initialState.blocks :=
  ((claim_C1 initialState [Op.setBlocks [Block.leaf 1 [] (LeafData.text "x")]]
      rfl).1 (by decide)).1

/-- Claim C3 (amended): `duplicateBlock` of a top-level block splices the
clone immediately after the original and selects it, the clone is
structurally identical to the original except for ids, carries the fresh
seed as its id, and (for well-formed blocks) every id in the clone's subtree
is fresh; but `duplicateBlock` of a block nested in a column's children
prepends the clone to the top-level sequence (the source's top-level
`findIndex` returns `-1` there), not next to the original. -/
theorem claim_C3 (s : EditorState) (seed : Nat) :
    (∀ (l1 l2 : List Block) (b : Block), s.blocks = l1 ++ b :: l2 →
      b.id ∉ treeIds l1 →
      duplicateBlock s b.id seed =
        { s with
          blocks := l1 ++ b :: (cloneBlock b seed).1 :: l2
          selectedBlockId := some (cloneBlock b seed).1.id
          history := pushToHistory s.history s.blocks
          isDirty := true }) ∧
    (∀ b : Block, stripIdsB (cloneBlock b seed).1 = stripIdsB b) ∧
    (∀ b : Block, (cloneBlock b seed).1.id = seed) ∧
    (∀ b : Block, wfBlock b = true →
      ∀ j ∈ blockTreeIds (cloneBlock b seed).1, seed ≤ j) ∧
    (∀ (l1 l2 cs1 cs2 c1 c2 : List Block) (k cid : Id) (kst cst : BlockStyles)
        (g w : String) (sm mr : Bool) (b : Block),
      s.blocks = l1 ++ Block.columnsB k kst g sm mr
        (cs1 ++ Block.columnB cid cst w (c1 ++ b :: c2) :: cs2) :: l2 →
      b.id ∉ treeIds l1 → b.id ∉ treeIds l2 → b.id ≠ k →
      b.id ∉ colsTreeIds cs1 → b.id ≠ cid → b.id ∉ treeIds c1 →
      (duplicateBlock s b.id seed).blocks = (cloneBlock b seed).1 :: s.blocks) := by
  refine ⟨?_, fun b => cloneBlock_strip b seed, fun b => cloneBlock_id b seed,
    fun b hw => cloneBlock_fresh b seed hw, ?_⟩
  · intro l1 l2 b hs h1
    have hf : findBlockById b.id s.blocks = some b := by
      rw [hs]; exact findBlockById_at_top l1 l2 b h1
    have hidx : s.blocks.findIdx? (fun a => a.id = b.id) = some l1.length := by
      rw [hs]
      exact findIdx_at l1 l2 b
        (fun a ha e => h1 (e ▸ mem_treeIds_of_mem l1 a ha))
    rw [duplicateBlock_eq s b.id seed b hf, hidx]
    dsimp only
    rw [hs, spliceInsert_after l1 l2 b (cloneBlock b seed).1]
  · intro l1 l2 cs1 cs2 c1 c2 k cid kst cst g w sm mr b hs h1 h2 hk h3 hc h5
    have hf : findBlockById b.id s.blocks = some b := by
      rw [hs]
      exact findBlockById_at_nested l1 l2 cs1 cs2 c1 c2 k cid kst cst g w sm mr b
        h1 hk h3 hc h5
    have hidx : s.blocks.findIdx? (fun a => a.id = b.id) = none := by
      rw [hs]
      apply findIdx_none
      intro a ha e
      rcases List.mem_append.mp ha with ha1 | ha2
      · exact h1 (e ▸ mem_treeIds_of_mem l1 a ha1)
      · rcases List.mem_cons.mp ha2 with rfl | ha3
        · exact hk e.symm
        · exact h2 (e ▸ mem_treeIds_of_mem l2 a ha3)
    rw [duplicateBlock_eq s b.id seed b hf, hidx]
    rfl

/-- Counterexample to C3 as stated: duplicating a block that sits inside a
column puts the clone at the front of the top-level sequence, not
immediately after the original inside the column. -/
theorem claim_C3_cex :
    (duplicateBlock
        { initialState with
          blocks := [Block.columnsB 1 [] "16px" true false
            [Block.columnB 2 [] "50%" [Block.leaf 3 [] (LeafData.text "x")]]] }
        3 10).blocks
      = [Block.leaf 10 [] (LeafData.text "x"),
         Block.columnsB 1 [] "16px" true false
           [Block.columnB 2 [] "50%" [Block.leaf 3 [] (LeafData.text "x")]]] ∧
    (duplicateBlock
        { initialState with
          blocks := [Block.columnsB 1 [] "16px" true false
            [Block.columnB 2 [] "50%" [Block.leaf 3 [] (LeafData.text "x")]]] }
        3 10).blocks
      ≠ [Block.columnsB 1 [] "16px" true false
          [Block.columnB 2 [] "50%"
            [Block.leaf 3 [] (LeafData.text "x"), Block.leaf 10 [] (LeafData.text "x")]]] := by
  decide

/-- Claim C7 (amended): for an existing-block drop on a resolved top-level
target, the final index is the target's cached index, plus one for an
`'after'` position, minus one when the source index was strictly before the
computed target index; the mutation is skipped exactly when the source
index equals the computed target index, or equals it minus one on an
`'after'` drop — but a `'before'` drop one slot below the source, though it
resolves to the block's current position, is not skipped and still issues
the move. -/
theorem claim_C7 (dd : DragData) (t : DropTarget) (n : Nat) (bid : Id) (si : Nat)
    (hk : dd.kind = DragKind.existingBlock) (hb : dd.blockId = some bid)
    (hs : dd.sourceIndex = some si) (hp : t.parentId = none) (hn : n ≠ 0) :
    (si = t.index + (if t.position = DropPosition.after then 1 else 0) ∨
        (si + 1 = t.index + (if t.position = DropPosition.after then 1 else 0) ∧
          t.position = DropPosition.after) →
      handleDrop (some dd) (some t) n = DropAction.noop) ∧
    (¬ (si = t.index + (if t.position = DropPosition.after then 1 else 0) ∨
        (si + 1 = t.index + (if t.position = DropPosition.after then 1 else 0) ∧
          t.position = DropPosition.after)) →
      handleDrop (some dd) (some t) n =
        DropAction.move bid
          (if si < t.index + (if t.position = DropPosition.after then 1 else 0)
           then t.index + (if t.position = DropPosition.after then 1 else 0) - 1
           else t.index + (if t.position = DropPosition.after then 1 else 0))
          none) := by
  obtain ⟨k, bt, bi, sidx⟩ := dd
  obtain ⟨tb, ti, tp, tpar⟩ := t
  dsimp only at hk hb hs hp ⊢
  subst hk
  subst hb
  subst hs
  subst hp
  have hred : handleDrop
      (some ⟨DragKind.existingBlock, bt, some bid, some si⟩)
      (some ⟨tb, ti, tp, none⟩) n
      = (if (si : Int) = (ti : Int) + (if tp = DropPosition.after then 1 else 0) ∨
            ((si : Int) = (ti : Int) + (if tp = DropPosition.after then 1 else 0) - 1 ∧
              tp = DropPosition.after)
         then DropAction.noop
         else DropAction.move bid
           (if 0 ≤ (si : Int) ∧
                (si : Int) < (ti : Int) + (if tp = DropPosition.after then 1 else 0)
            then (ti : Int) + (if tp = DropPosition.after then 1 else 0) - 1
            else (ti : Int) + (if tp = DropPosition.after then 1 else 0)).toNat none) := by
    match n, hn with
    | m + 1, _ => rfl
  constructor
  · intro hcond
    rw [hred, if_pos ?hC]
    case hC =>
      by_cases hafter : tp = DropPosition.after <;>
        simp [hafter] at hcond ⊢ <;> omega
  · intro hcond
    rw [hred, if_neg ?hC]
    case hC =>
      by_cases hafter : tp = DropPosition.after <;>
        simp [hafter] at hcond ⊢ <;> omega
    congr 1
    have hTN : (ti : Int) + (if tp = DropPosition.after then 1 else 0)
        = ((ti + (if tp = DropPosition.after then 1 else 0) : Nat) : Int) := by
      push_cast
      rfl
    rw [hTN]
    by_cases hlt : si < ti + (if tp = DropPosition.after then 1 else 0)
    · rw [if_pos ⟨Int.natCast_nonneg si, by exact_mod_cast hlt⟩, if_pos hlt]
      omega
    · rw [if_neg (fun h => hlt (by exact_mod_cast h.2)), if_neg hlt]
      omega

/-- Witness for C7: a concrete non-adjacent drop issues the move at the
computed index. -/
theorem claim_C7_witness :
    handleDrop (some ⟨DragKind.existingBlock, none, some 3, some 2⟩)
        (some ⟨7, 0, DropPosition.before, none⟩) 2
      = DropAction.move 3 0 none :=
  (claim_C7 ⟨DragKind.existingBlock, none, some 3, some 2⟩
      ⟨7, 0, DropPosition.before, none⟩ 2 3 2 rfl rfl rfl rfl (by decide)).2
    (by decide)

/-- Counterexample to C7 as stated: dropping `'before'` the successor of the
dragged block resolves to the block's current position, yet the drop is not
skipped — it issues a same-position `moveBlock`, which leaves the tree
unchanged but still mutates the store (a history snapshot is pushed). -/
theorem claim_C7_cex :
    handleDrop (some ⟨DragKind.existingBlock, none, some 5, some 0⟩)
        (some ⟨9, 1, DropPosition.before, none⟩) 2
      = DropAction.move 5 0 none ∧
    (moveBlock
        { initialState with
          blocks := [Block.leaf 5 [] (LeafData.text "a"),
            Block.leaf 9 [] (LeafData.text "b")] } 5 0 none).blocks
      = [Block.leaf 5 [] (LeafData.text "a"), Block.leaf 9 [] (LeafData.text "b")] ∧
    moveBlock
        { initialState with
          blocks := [Block.leaf 5 [] (LeafData.text "a"),
            Block.leaf 9 [] (LeafData.text "b")] } 5 0 none
      ≠ { initialState with
          blocks := [Block.leaf 5 [] (LeafData.text "a"),
            Block.leaf 9 [] (LeafData.text "b")] } := by
  decide

/-- Claim C8: drop-target resolution is a pure function of the cached
rectangles and the pointer: a column target takes precedence over any
top-level candidate, the dragged block is excluded from candidacy by the
top-level scan, the column-children scan and the past-the-end fallback, and
on three stacked blocks the pointer above the second block's midpoint
resolves to before it while a pointer below the last block's midpoint
resolves to after it. -/
theorem claim_C8 :
    (∀ (dragData : Option DragData) (blockRects : List BlockRect)
        (columnRects : List ColumnRect) (x y : ℚ) (t : DropTarget),
      findColumnTarget dragData columnRects x y = some t →
      updateDropTarget dragData blockRects columnRects x y = some t) ∧
    (∀ (dragId : Option Id) (y : ℚ) (rs : List BlockRect) (t : DropTarget),
      findTopTarget dragId y rs = some t → dragId ≠ some t.blockId) ∧
    (∀ (dragId : Option Id) (colId : Id) (y : ℚ) (rs : List BlockRect)
        (t : DropTarget),
      findChildTarget dragId colId y rs = some t → dragId ≠ some t.blockId) ∧
    (∀ (dragData : Option DragData) (blockRects : List BlockRect) (x y : ℚ)
        (t : DropTarget),
      updateDropTarget dragData blockRects [] x y = some t →
      dragBlockId dragData ≠ some t.blockId) ∧
    updateDropTarget none
        [⟨1, 0, 0, 100, 100⟩, ⟨2, 1, 100, 200, 100⟩, ⟨3, 2, 200, 300, 100⟩] [] 50 120
      = some ⟨2, 1, DropPosition.before, none⟩ ∧
    updateDropTarget none
        [⟨1, 0, 0, 100, 100⟩, ⟨2, 1, 100, 200, 100⟩, ⟨3, 2, 200, 300, 100⟩] [] 50 280
      = some ⟨3, 2, DropPosition.after, none⟩ ∧
    updateDropTarget none
        [⟨1, 0, 0, 100, 100⟩, ⟨2, 1, 100, 200, 100⟩, ⟨3, 2, 200, 300, 100⟩] [] 50 350
      = some ⟨3, 2, DropPosition.after, none⟩ := by
  have hTop : ∀ (dragId : Option Id) (y : ℚ) (rs : List BlockRect) (t : DropTarget),
      findTopTarget dragId y rs = some t → dragId ≠ some t.blockId := by
    intro dragId y rs
    induction rs with
    | nil => intro t h; simp [findTopTarget] at h
    | cons r rs ih =>
      intro t h
      rw [findTopTarget] at h
      by_cases hd : dragId = some r.id
      · rw [if_pos hd] at h
        exact ih t h
      · rw [if_neg hd] at h
        by_cases hy : y < r.bottom
        · rw [if_pos hy] at h
          injection h with h1
          subst h1
          exact hd
        · rw [if_neg hy] at h
          exact ih t h
  have hChild : ∀ (dragId : Option Id) (colId : Id) (y : ℚ) (rs : List BlockRect)
      (t : DropTarget),
      findChildTarget dragId colId y rs = some t → dragId ≠ some t.blockId := by
    intro dragId colId y rs
    induction rs with
    | nil => intro t h; simp [findChildTarget] at h
    | cons r rs ih =>
      intro t h
      rw [findChildTarget] at h
      by_cases hd : dragId = some r.id
      · rw [if_pos hd] at h
        exact ih t h
      · rw [if_neg hd] at h
        by_cases hy : y < r.bottom
        · rw [if_pos hy] at h
          injection h with h1
          subst h1
          exact hd
        · rw [if_neg hy] at h
          exact ih t h
  refine ⟨?_, hTop, hChild, ?_, of_decide_eq_true (by with_unfolding_all rfl),
    of_decide_eq_true (by with_unfolding_all rfl),
    of_decide_eq_true (by with_unfolding_all rfl)⟩
  · intro dragData blockRects columnRects x y t h
    rw [updateDropTarget, h]
  · intro dragData blockRects x y t h
    simp only [updateDropTarget, findColumnTarget] at h
    by_cases he : blockRects.isEmpty = true
    · rw [if_pos he] at h
      cases h
    · rw [if_neg he] at h
      revert h
      match hft : findTopTarget (dragBlockId dragData) y blockRects with
      | some t0 =>
        intro h
        dsimp only at h
        injection h with h1
        subst h1
        exact hTop _ y blockRects t0 hft
      | none =>
        intro h
        dsimp only at h
        revert h
        match hl : blockRects.getLast? with
        | some last =>
          intro h
          dsimp only at h
          by_cases hd : dragBlockId dragData = some last.id
          · rw [if_pos hd] at h
            cases h
          · rw [if_neg hd] at h
            injection h with h1
            subst h1
            exact hd
        | none =>
          intro h
          dsimp only at h
          cases h

end EmailBuilder